import Mathlib

/-!
Verification development for the CANRUG repository scripts:
`events-fetcher.py`, `fetch-events.py` and `build-local.py`.

The Python functions are shallowly embedded as executable Lean
definitions over `List Char` / `String`, and the specification
claims are settled as theorems about those definitions.
-/

namespace CANRUG

/-! ## Basic character and list utilities -/

/-- Whitespace as matched by Pythons regex `\s` on ASCII text. -/
def pyIsSpace (c : Char) : Bool :=
  c = ' ' || c = '\t' || c = '\n' || c = '\r' || c = '\x0b' || c = '\x0c'

/-- ASCII letter test (`[a-zA-Z]`). -/
def isAsciiAlphaB (c : Char) : Bool :=
  ('a' ≤ c && c ≤ 'z') || ('A' ≤ c && c ≤ 'Z')

/-- ASCII digit test (`[0-9]`). -/
def isDigitB (c : Char) : Bool :=
  '0' ≤ c && c ≤ '9'

/-- ASCII alphanumeric test (`[a-zA-Z0-9]`). -/
def isAlnumB (c : Char) : Bool :=
  isAsciiAlphaB c || isDigitB c

/-- Regex word-character test (`\w` restricted to ASCII). -/
def isWordB (c : Char) : Bool :=
  isAlnumB c || c = '_'

/-- ASCII lower-casing, as Pythons `str.lower` acts on ASCII letters. -/
def toLowerC (c : Char) : Char :=
  if 'A' ≤ c && c ≤ 'Z' then Char.ofNat (c.toNat + 32) else c

/-- Test whether `pat` is an initial segment of `cs`. -/
def startsList : List Char → List Char → Bool
  | [], _ => true
  | _ :: _, [] => false
  | p :: ps, c :: cs => p = c && startsList ps cs

/-- Test whether `pat` occurs as a contiguous segment of `cs`
(Pythons `in` operator on strings). -/
def containsSeg (pat : List Char) : List Char → Bool
  | [] => startsList pat []
  | c :: cs => startsList pat (c :: cs) || containsSeg pat cs

/-- String-level wrapper for `containsSeg`. -/
def strContains (s pat : String) : Bool :=
  containsSeg pat.data s.data

/--
Generic left-to-right scanner used to model Pythons `re.sub` and
`str.replace`: at each position, `step c rest` inspects the current
character together with the remaining text; on `some (out, k)` the
match emits `out` and skips `k` further characters of `rest`, otherwise
the character is copied verbatim. The `Nat` argument counts characters
still to be skipped from an earlier match.
-/
def pyScan (step : Char → List Char → Option (List Char × Nat)) :
    Nat → List Char → List Char
  | _, [] => []
  | n + 1, _ :: rest => pyScan step n rest
  | 0, c :: rest =>
    match step c rest with
    | some (out, k) => out ++ pyScan step k rest
    | none => c :: pyScan step 0 rest

/-- Scanner step for `str.replace pat repl` (leftmost, non-overlapping). -/
def replStep (pat repl : List Char) (c : Char) (rest : List Char) :
    Option (List Char × Nat) :=
  if startsList pat (c :: rest) then some (repl, pat.length - 1) else none

/-- Pythons `str.replace` for a non-empty pattern. -/
def replaceAllL (pat repl cs : List Char) : List Char :=
  if pat.isEmpty then cs else pyScan (replStep pat repl) 0 cs

/-- String-level wrapper for `replaceAllL`. -/
def strReplace (s pat repl : String) : String :=
  ⟨replaceAllL pat.data repl.data s.data⟩

/-! ## Model of Python `datetime` values

`datetime.fromisoformat` is modelled on the grammar
`YYYY-MM-DD[<sep>HH:MM[:SS[.ffffff]][±HH:MM]]` (the format emitted by
`datetime.isoformat`, which is what the scripts feed it after replacing
`Z` with `+00:00`).  A missing offset yields a naive datetime
(`offset = none`); comparing a naive datetime with an aware one raises
`TypeError` in Python, which the scripts `except` blocks turn into
their fallback paths. -/

/-- Python `datetime` value; `offset` is minutes east of UTC,
`none` for a naive datetime. -/
structure PyDateTime where
  year : Nat
  month : Nat
  day : Nat
  hour : Nat
  minute : Nat
  second : Nat
  micro : Nat
  offset : Option Int
  deriving Repr, DecidableEq

/-- Consume exactly `n` ASCII digits, returning their value. -/
def parseDigits : Nat → Nat → List Char → Option (Nat × List Char)
  | 0, acc, cs => some (acc, cs)
  | n + 1, acc, cs =>
    match cs with
    | c :: rest =>
      if isDigitB c then parseDigits n (acc * 10 + (c.toNat - 48)) rest else none
    | [] => none

/-- Consume one expected character. -/
def chompChar (c : Char) : List Char → Option (List Char)
  | d :: rest => if d = c then some rest else none
  | [] => none

/-- Gregorian leap-year test. -/
def isLeap (y : Nat) : Bool :=
  y % 4 == 0 && (y % 100 != 0 || y % 400 == 0)

/-- Days in a month of the proleptic Gregorian calendar. -/
def daysInMonth (y m : Nat) : Nat :=
  if m = 2 then (if isLeap y then 29 else 28)
  else if m = 4 || m = 6 || m = 9 || m = 11 then 30
  else 31

/-- Parse `YYYY-MM-DD` with range validation (Python `date` bounds). -/
def parseDate (cs : List Char) : Option (Nat × Nat × Nat × List Char) :=
  match parseDigits 4 0 cs with
  | none => none
  | some (y, r1) =>
    match chompChar '-' r1 with
    | none => none
    | some r2 =>
      match parseDigits 2 0 r2 with
      | none => none
      | some (m, r3) =>
        match chompChar '-' r3 with
        | none => none
        | some r4 =>
          match parseDigits 2 0 r4 with
          | none => none
          | some (d, r5) =>
            if 1 ≤ y ∧ 1 ≤ m ∧ m ≤ 12 ∧ 1 ≤ d ∧ d ≤ daysInMonth y m then
              some (y, m, d, r5)
            else none

/-- Parse an optional fractional-seconds part `.f{1,6}` into microseconds. -/
def parseFrac (cs : List Char) : Option (Nat × List Char) :=
  match cs with
  | '.' :: rest =>
    let digs := rest.takeWhile isDigitB
    let n := digs.length
    if 1 ≤ n ∧ n ≤ 6 then
      match parseDigits n 0 rest with
      | some (v, r) => some (v * 10 ^ (6 - n), r)
      | none => none
    else none
  | _ => some (0, cs)

/-- Parse a UTC offset `±HH:MM` into minutes east of UTC. -/
def parseOffset (cs : List Char) : Option (Int × List Char) :=
  match cs with
  | c :: rest =>
    if c = '+' ∨ c = '-' then
      match parseDigits 2 0 rest with
      | none => none
      | some (hh, r1) =>
        match chompChar ':' r1 with
        | none => none
        | some r2 =>
          match parseDigits 2 0 r2 with
          | none => none
          | some (mm, r3) =>
            if hh ≤ 23 ∧ mm ≤ 59 then
              let mins : Int := (hh * 60 + mm : Nat)
              some (if c = '-' then -mins else mins, r3)
            else none
    else none
  | [] => none

/-- Parse `HH:MM[:SS[.ffffff]][±HH:MM]`, requiring the whole input
to be consumed. -/
def parseTime (cs : List Char) : Option (Nat × Nat × Nat × Nat × Option Int) :=
  match parseDigits 2 0 cs with
  | none => none
  | some (hh, r1) =>
    match chompChar ':' r1 with
    | none => none
    | some r2 =>
      match parseDigits 2 0 r2 with
      | none => none
      | some (mi, r3) =>
        let step2 : Option (Nat × Nat × List Char) :=
          match chompChar ':' r3 with
          | some r4 =>
            match parseDigits 2 0 r4 with
            | none => none
            | some (ss, r5) =>
              match parseFrac r5 with
              | none => none
              | some (us, r6) => some (ss, us, r6)
          | none => some (0, 0, r3)
        match step2 with
        | none => none
        | some (ss, us, r6) =>
          if hh ≤ 23 ∧ mi ≤ 59 ∧ ss ≤ 59 then
            match r6 with
            | [] => some (hh, mi, ss, us, none)
            | _ :: _ =>
              match parseOffset r6 with
              | some (off, []) => some (hh, mi, ss, us, some off)
              | _ => none
          else none

/-- Model of `datetime.fromisoformat`: a date, optionally followed by a
single separator character and a time with optional offset. -/
def fromIso (s : String) : Option PyDateTime :=
  match parseDate s.data with
  | none => none
  | some (y, m, d, rest) =>
    match rest with
    | [] => some ⟨y, m, d, 0, 0, 0, 0, none⟩
    | _sep :: trest =>
      match parseTime trest with
      | some (hh, mi, ss, us, off) => some ⟨y, m, d, hh, mi, ss, us, off⟩
      | none => none

/-- Cumulative days before the start of month `m` in a non-leap year. -/
def daysBeforeMonth (m : Nat) : Nat :=
  [0, 31, 59, 90, 120, 151, 181, 212, 243, 273, 304, 334].getD (m - 1) 0

/-- Days since 0001-01-01 in the proleptic Gregorian calendar
(Pythons `date.toordinal` minus one). -/
def daysSinceEpoch (y m d : Nat) : Nat :=
  365 * (y - 1) + (y - 1) / 4 - (y - 1) / 100 + (y - 1) / 400 +
    daysBeforeMonth m + (if 2 < m ∧ isLeap y then 1 else 0) + (d - 1)

/-- Instant of an (aware) datetime in microseconds since 0001-01-01 UTC;
Python orders aware datetimes exactly by this value. -/
def utcMicros (dt : PyDateTime) : Int :=
  ((daysSinceEpoch dt.year dt.month dt.day * 86400 + dt.hour * 3600 +
      dt.minute * 60 + dt.second : Nat) : Int) * 1000000 + (dt.micro : Int) -
    dt.offset.getD 0 * 60000000

/-- Preprocessing `start_str.replace(Z, +00:00)` used by every
script before calling `fromisoformat`. -/
def zfix (s : String) : String :=
  strReplace s "Z" "+00:00"

/-! ## Raw calendar events (Google Calendar API `items` entries) -/

/-- The `start`/`end` object of a raw event. -/
structure RawTime where
  dateTime : Option String
  date : Option String
  timeZone : Option String
  deriving Repr, DecidableEq

/-- A raw event as the scripts read it from the API response. -/
structure RawEvent where
  summary : Option String
  description : Option String
  location : Option String
  htmlLink : Option String
  start : Option RawTime
  stop : Option RawTime
  deriving Repr, DecidableEq

/-- Python `event.get(start, {})`: a missing object defaults to
the empty dict, whose own `get`s all return their defaults. -/
def getTime (t : Option RawTime) : RawTime :=
  t.getD ⟨none, none, none⟩

/-- Python `opt.get(key, default)` on an optional string field. -/
def pyGetD (o : Option String) (d : String) : String :=
  o.getD d

/-- Python `a or b` where `a` is `None` or a string and `b` a string:
the empty string and `None` are falsy. -/
def pyOrStr (a : Option String) (b : String) : String :=
  match a with
  | some s => if s = "" then b else s
  | none => b

/-- Model of `event.get(start, {}).get(dateTime) or event.get(start, {}).get(date, )`
(`events-fetcher.py`, lines 154/193). -/
def extractStart (ev : RawEvent) : String :=
  pyOrStr (getTime ev.start).dateTime (pyGetD (getTime ev.start).date "")

/-- The same extraction for the `end` object. -/
def extractEnd (ev : RawEvent) : String :=
  pyOrStr (getTime ev.stop).dateTime (pyGetD (getTime ev.stop).date "")

/-- Model of `event.get(start, {}).get(timeZone, UTC)`. -/
def extractTZ (ev : RawEvent) : String :=
  pyGetD (getTime ev.start).timeZone "UTC"

/-! ## `EventsFetcher.clean_description` (events-fetcher.py, lines 101-140) -/

/-- The allow-listed tag names of `clean_description`. -/
def allowedTags : List (List Char) :=
  ["a", "br", "p", "strong", "em", "ul", "ol", "li"].map String.data

/-- Sequential decoding of the five backslash-escaped entities, in the
order the Python code chains `.replace`. -/
def decodeEntities (cs : List Char) : List Char :=
  replaceAllL "\\u0027".data "\x27".data
    (replaceAllL "\\u0022".data "\"".data
      (replaceAllL "\\u0026".data "&".data
        (replaceAllL "\\u003e".data ">".data
          (replaceAllL "\\u003c".data "<".data cs))))

/--
Attempt to match the regex `</?([a-z][a-z0-9]*)\b[^>]*>` (IGNORECASE)
at a position whose `<` has already been consumed; `rest` is the text
after the `<`.  Returns the full matched text together with the number
of characters of `rest` it covers.  The `\b` can only fail when the
character after the maximal tag name is `_`, since the name is a maximal
run of word characters of the shapes `[a-z]` / `[a-z0-9]`.
-/
def tryTag (rest : List Char) : Option (List Char × List Char × Nat) :=
  let (slash, cs1) : Bool × List Char :=
    match rest with
    | '/' :: t => (true, t)
    | _ => (false, rest)
  match cs1 with
  | c :: t =>
    if isAsciiAlphaB c then
      let nameTail := t.takeWhile isAlnumB
      let cs2 := t.dropWhile isAlnumB
      let name := c :: nameTail
      match cs2 with
      | '_' :: _ => none
      | _ =>
        let attrs := cs2.takeWhile (fun d => !(d = '>'))
        match cs2.dropWhile (fun d => !(d = '>')) with
        | '>' :: _ =>
          let matched :=
            '<' :: ((if slash then ['/'] else []) ++ name ++ attrs ++ ['>'])
          some (name.map toLowerC, matched, matched.length - 1)
        | _ => none
    else none
  | [] => none

/-- Scanner step for the tag-filtering `re.sub`: fires at `<`, keeps an
allow-listed tag verbatim and deletes any other matched tag. -/
def tagStep (c : Char) (rest : List Char) : Option (List Char × Nat) :=
  if c = '<' then
    match tryTag rest with
    | some (lowName, matched, k) =>
      if allowedTags.contains lowName then some (matched, k) else some ([], k)
    | none => none
  else none

/-- The tag-filtering pass of `clean_description`. -/
def stripTags (cs : List Char) : List Char :=
  pyScan tagStep 0 cs

/-- Model of `EventsFetcher.clean_description`. -/
def cleanDescription (description : Option String) : String :=
  match description with
  | none => ""
  | some s =>
    if s = "" then "" else ⟨stripTags (decodeEntities s.data)⟩

/-! ## `strftime` fragments used by the scripts -/

/-- Abbreviated month name (`%b`). -/
def monthAbbrev (m : Nat) : String :=
  ["Jan", "Feb", "Mar", "Apr", "May", "Jun",
   "Jul", "Aug", "Sep", "Oct", "Nov", "Dec"].getD (m - 1) ""

/-- Full month name (`%B`). -/
def monthFull (m : Nat) : String :=
  ["January", "February", "March", "April", "May", "June", "July",
   "August", "September", "October", "November", "December"].getD (m - 1) ""

/-- Zero-padded two-digit decimal (`%d`, `%m`, `%H`, `%I`, `%M`, `%S`). -/
def pad2 (n : Nat) : String :=
  if n < 10 then "0" ++ toString n else toString n

/-- Hour on the 12-hour clock (`%I`, before padding). -/
def hour12 (h : Nat) : Nat :=
  if h % 12 = 0 then 12 else h % 12

/-- Model of `%p` AM/PM marker. -/
def ampm (h : Nat) : String :=
  if h < 12 then "AM" else "PM"

/-- Model of `dt.strftime(%b %d, %Y, %I:%M %p)`. -/
def fmtLong (dt : PyDateTime) : String :=
  monthAbbrev dt.month ++ " " ++ pad2 dt.day ++ ", " ++ toString dt.year ++
    ", " ++ pad2 (hour12 dt.hour) ++ ":" ++ pad2 dt.minute ++ " " ++ ampm dt.hour

/-- Model of `dt.strftime(%I:%M %p)`. -/
def fmtShort (dt : PyDateTime) : String :=
  pad2 (hour12 dt.hour) ++ ":" ++ pad2 dt.minute ++ " " ++ ampm dt.hour

/-- Model of `dt.strftime(%B %d, %Y)` (used by `fetch-events.py`). -/
def fmtFullDate (dt : PyDateTime) : String :=
  monthFull dt.month ++ " " ++ pad2 dt.day ++ ", " ++ toString dt.year

/-- Model of `dt.strftime(%Y%m%dT%H%M%SZ)` (compact form for quick-add links). -/
def fmtCompact (dt : PyDateTime) : String :=
  toString dt.year ++ pad2 dt.month ++ pad2 dt.day ++ "T" ++
    pad2 dt.hour ++ pad2 dt.minute ++ pad2 dt.second ++ "Z"

/-! ## `EventsFetcher.format_event_times` (events-fetcher.py, lines 59-99) -/

/-- The pair of display strings returned by `format_event_times`. -/
structure WhenPair where
  eventTZ : String
  localTZ : String
  deriving Repr, DecidableEq

/-- Model of `EventsFetcher.format_event_times`: on any parse failure of either
endpoint the `except` branch returns the raw strings verbatim. -/
def formatEventTimes (startStr endStr eventTimezone : String) : WhenPair :=
  match fromIso (zfix startStr), fromIso (zfix endStr) with
  | some start, some stop =>
    { eventTZ := fmtLong start ++ " - " ++ fmtShort stop ++
        " (" ++ eventTimezone ++ ")"
      localTZ := fmtLong start ++ " - " ++ fmtShort stop ++ " (UTC)" }
  | _, _ =>
    { eventTZ := startStr ++ " - " ++ endStr
      localTZ := startStr ++ " - " ++ endStr }

/-! ## URL encoding (`urllib.parse.quote`) -/

/-- UTF-8 encoding of a Unicode code point. -/
def utf8Bytes (n : Nat) : List Nat :=
  if n < 0x80 then [n]
  else if n < 0x800 then [0xC0 + n / 64, 0x80 + n % 64]
  else if n < 0x10000 then
    [0xE0 + n / 4096, 0x80 + n / 64 % 64, 0x80 + n % 64]
  else
    [0xF0 + n / 262144, 0x80 + n / 4096 % 64, 0x80 + n / 64 % 64,
     0x80 + n % 64]

/-- Upper-case hexadecimal digit. -/
def hexDigit (n : Nat) : Char :=
  if n < 10 then Char.ofNat (48 + n) else Char.ofNat (55 + n)

/-- Percent-encoding of one byte. -/
def pctByte (b : Nat) : List Char :=
  ['%', hexDigit (b / 16), hexDigit (b % 16)]

/-- Characters `urllib.parse.quote` never encodes
(letters, digits, `_.-~` and, with the default `safe`, `/`). -/
def quoteSafe (c : Char) : Bool :=
  isAlnumB c || c = '_' || c = '.' || c = '-' || c = '~' || c = '/'

/-- Model of `urllib.parse.quote` with the default `safe=/`. -/
def urlQuote (s : String) : String :=
  ⟨(s.data.map fun c =>
      if quoteSafe c then [c] else ((utf8Bytes c.toNat).map pctByte).flatten).flatten⟩

/-! ## `EventsFetcher.make_add_to_calendar_link` (events-fetcher.py, lines 142-178) -/

/-- Link synthesis path of `make_add_to_calendar_link` (used when the
event carries no usable `htmlLink`). -/
def makeLinkBody (ev : RawEvent) : String :=
  let start := extractStart ev
  let stop := extractEnd ev
  let title := urlQuote (pyGetD ev.summary "Event")
  let details := urlQuote (pyGetD ev.description "")
  let location := urlQuote (pyGetD ev.location "")
  match fromIso (zfix start), fromIso (zfix stop) with
  | some sdt, some edt =>
    "https://www.google.com/calendar/render?action=TEMPLATE&text=" ++ title ++
      "&dates=" ++ fmtCompact sdt ++ "/" ++ fmtCompact edt ++
      "&details=" ++ details ++ "&location=" ++ location ++
      "&sf=true&output=xml"
  | _, _ =>
    "https://www.google.com/calendar/render?action=TEMPLATE&text=" ++ title

/-- Model of `EventsFetcher.make_add_to_calendar_link`: reuse the provided link,
else build a quick-add template URL, degrading to a title-only link when
the times do not parse. -/
def makeAddToCalendarLink (ev : RawEvent) : String :=
  match ev.htmlLink with
  | some l => if l = "" then makeLinkBody ev else l
  | none => makeLinkBody ev

/-! ## `EventsFetcher.process_event` (events-fetcher.py, lines 180-217) -/

/-- The normalized event record built by `process_event`. -/
structure NormEvent where
  summary : String
  start : String
  stop : String
  eventTimeZone : String
  whenEventTZ : String
  whenLocalTZ : String
  description : String
  htmlLink : String
  location : String
  deriving Repr, DecidableEq

/-- Model of `EventsFetcher.process_event`. -/
def processEvent (ev : RawEvent) : NormEvent :=
  let start := extractStart ev
  let stop := extractEnd ev
  let eventTimezone := extractTZ ev
  let whenP := formatEventTimes start stop eventTimezone
  { summary := pyGetD ev.summary "Untitled Event"
    start := start
    stop := stop
    eventTimeZone := eventTimezone
    whenEventTZ := whenP.eventTZ
    whenLocalTZ := whenP.localTZ
    description := cleanDescription ev.description
    htmlLink := makeAddToCalendarLink ev
    location := pyGetD ev.location "" }

/-! ## Categorization in `EventsFetcher.fetch_events`
(events-fetcher.py, lines 248-288) -/

/--
Classification of one processed event: the `try` block parses the start
string and compares the resulting datetime with the aware `now`; any
exception (unparseable string, or the `TypeError` Python raises when
comparing a naive datetime with an aware one) lands in the `except`
branch, which appends to `upcoming`.  `true` means `upcoming`.
-/
def classifyEF (now : Int) (startStr : String) : Bool :=
  match fromIso (zfix startStr) with
  | some dt =>
    match dt.offset with
    | some _ => decide (now ≤ utcMicros dt)
    | none => true
  | none => true

/-- The partition loop of `fetch_events`, before sorting. -/
def eventsFetcherPartition (now : Int) :
    List RawEvent → List NormEvent × List NormEvent
  | [] => ([], [])
  | ev :: rest =>
    if classifyEF now (processEvent ev).start then
      (processEvent ev :: (eventsFetcherPartition now rest).1,
        (eventsFetcherPartition now rest).2)
    else
      ((eventsFetcherPartition now rest).1,
        processEvent ev :: (eventsFetcherPartition now rest).2)

/-! ## Stable sorting (`list.sort(key=..., reverse=...)`)

Pythons `list.sort` is a stable sort; for a total preorder there is
exactly one stable sorted rearrangement, so the straightforward stable
insertion sort below is an exact model of its output. -/

/-- Lexicographic comparison of strings by code points, i.e. the order
Python uses to compare the `start` key strings. -/
def listLe : List Char → List Char → Bool
  | [], _ => true
  | _ :: _, [] => false
  | a :: as, b :: bs =>
    if a.toNat < b.toNat then true
    else if b.toNat < a.toNat then false
    else listLe as bs

/-- String-level wrapper for `listLe`. -/
def strLeB (a b : String) : Bool :=
  listLe a.data b.data

/-- Stable insertion: place `a` before the first element `b` with
`le a b`, i.e. after every earlier element tied with `a`. -/
def sInsert (le : α → α → Bool) (a : α) : List α → List α
  | [] => [a]
  | b :: l => if le a b then a :: b :: l else b :: sInsert le a l

/-- Stable insertion sort. -/
def sSort (le : α → α → Bool) : List α → List α
  | [] => []
  | a :: l => sInsert le a (sSort le l)

/-- Ascending key comparison for `upcoming.sort(key=lambda x: x[start])`. -/
def keyLeUp (a b : NormEvent) : Bool :=
  strLeB a.start b.start

/-- Descending key comparison for
`past.sort(key=lambda x: x[start], reverse=True)`. -/
def keyLeDown (a b : NormEvent) : Bool :=
  strLeB b.start a.start

/-- The pure core of `EventsFetcher.fetch_events`: partition the fetched
items against the single `now`, then sort the two buckets. -/
def eventsFetcherRun (now : Int) (events : List RawEvent) :
    List NormEvent × List NormEvent :=
  (sSort keyLeUp (eventsFetcherPartition now events).1,
    sSort keyLeDown (eventsFetcherPartition now events).2)

/-! ## `categorize_events` (fetch-events.py, lines 65-94) -/

/-- Python `a or b` on two optional strings, as used for
`start.get(dateTime) or start.get(date)`. -/
def firstTruthy (a b : Option String) : Option String :=
  match a with
  | some s => if s = "" then b else some s
  | none => b

/-- Truthiness of the resulting start string (`if not start_str: continue`). -/
def truthyStr (o : Option String) : Bool :=
  match o with
  | some s => !(s = "")
  | none => false

/-- The start string `categorize_events` works with. -/
def startStrFE (ev : RawEvent) : Option String :=
  firstTruthy (getTime ev.start).dateTime (getTime ev.start).date

/-- Outcome of the loop body of `categorize_events` for one event. -/
inductive FEClass where
  | upcoming
  | past
  | skipped
  deriving Repr, DecidableEq

/--
Classification in `categorize_events`: a falsy start string hits the
`continue`; a start containing `T` is parsed after the `Z` replacement
(a naive result makes the `>=` comparison raise `TypeError`, caught by
the `except`, so the event lands in neither bucket); a date-only start
gets `T00:00:00+00:00` appended before parsing.  Parse failures are
likewise caught and the event is dropped with a warning.
-/
def classifyFE (now : Int) (ev : RawEvent) : FEClass :=
  match startStrFE ev with
  | none => .skipped
  | some s =>
    if s = "" then .skipped
    else if strContains s "T" then
      match fromIso (zfix s) with
      | some dt =>
        match dt.offset with
        | some _ => if now ≤ utcMicros dt then .upcoming else .past
        | none => .skipped
      | none => .skipped
    else
      match fromIso (s ++ "T00:00:00+00:00") with
      | some dt => if now ≤ utcMicros dt then .upcoming else .past
      | none => .skipped

/-- Model of `categorize_events`: split the raw items into upcoming and past. -/
def categorizeEvents (now : Int) : List RawEvent → List RawEvent × List RawEvent
  | [] => ([], [])
  | ev :: rest =>
    match classifyFE now ev with
    | .upcoming =>
      (ev :: (categorizeEvents now rest).1, (categorizeEvents now rest).2)
    | .past =>
      ((categorizeEvents now rest).1, ev :: (categorizeEvents now rest).2)
    | .skipped => categorizeEvents now rest

/-! ## HTML rendering (fetch-events.py, lines 97-193) -/

/-- Model of `escape_html`: the five sequential `.replace` calls. -/
def escapeHtml (s : String) : String :=
  strReplace
    (strReplace
      (strReplace
        (strReplace
          (strReplace s "&" "&amp;")
          "<" "&lt;")
        ">" "&gt;")
      "\"" "&quot;")
    "\x27" "&#39;"

/-- The date/time block of `generate_event_html`: the `try` block formats
the parsed values, its `except` falls back to the raw start string, and
nothing is emitted when either raw time value is falsy. -/
def genTimePart (ev : RawEvent) : String :=
  let startT := getTime ev.start
  let endT := getTime ev.stop
  let startDt := firstTruthy startT.dateTime startT.date
  let endDt := firstTruthy endT.dateTime endT.date
  let timezoneStr := pyGetD startT.timeZone "UTC"
  if truthyStr startDt && truthyStr endDt then
    let sd := startDt.getD ""
    let ed := endDt.getD ""
    if strContains sd "T" then
      match fromIso (zfix sd), fromIso (zfix ed) with
      | some so, some eo =>
        "    <p><strong>Date:</strong> " ++ fmtFullDate so ++ "</p>\n" ++
          "    <p><strong>Time:</strong> " ++ fmtShort so ++ " - " ++
          fmtShort eo ++ " (" ++ timezoneStr ++ ")</p>\n" ++
          "    <p><strong>Your Local Time:</strong> <span class=\"js-local-time\" data-start=\"" ++
          sd ++ "\" data-end=\"" ++ ed ++ "\">Loading...</span></p>\n"
      | _, _ => "    <p><strong>Time:</strong> " ++ sd ++ "</p>\n"
    else
      match fromIso sd with
      | some dobj =>
        "    <p><strong>Date:</strong> " ++ fmtFullDate dobj ++ " (All day)</p>\n"
      | none => "    <p><strong>Time:</strong> " ++ sd ++ "</p>\n"
  else ""

/-- The `if location:` block of `generate_event_html`. -/
def genLocPart (ev : RawEvent) : String :=
  if pyGetD ev.location "" = "" then ""
  else "    <p><strong>Location:</strong> " ++
    escapeHtml (pyGetD ev.location "") ++ "</p>\n"

/-- The `if description:` block of `generate_event_html`. -/
def genDescPart (ev : RawEvent) : String :=
  if pyGetD ev.description "" = "" then ""
  else "    <div class=\"event-description\">" ++
    strReplace (escapeHtml (pyGetD ev.description "")) "\n" "<br>" ++ "</div>\n"

/-- Model of `generate_event_html`. -/
def genEventHtml (ev : RawEvent) : String :=
  "<article class=\"event-card\">\n    <h3>" ++
    escapeHtml (pyGetD ev.summary "Untitled Event") ++ "</h3>\n" ++
    genTimePart ev ++ genLocPart ev ++ genDescPart ev ++ "</article>\n"

/-- Contents written to `events-upcoming.html` by `generate_html_includes`. -/
def upcomingIncludeHtml (upcoming : List RawEvent) : String :=
  if upcoming.isEmpty then
    "<p>No upcoming events at this time. Check back soon!</p>\n"
  else String.join (upcoming.map genEventHtml)

/-- Contents written to `events-past.html` by `generate_html_includes`:
the `past` list is reversed in place before rendering. -/
def pastIncludeHtml (past : List RawEvent) : String :=
  if past.isEmpty then "<p>No past events recorded.</p>\n"
  else String.join (past.reverse.map genEventHtml)

/-- The categorize-and-render flow of `main` in fetch-events.py. -/
def fetchEventsPipelineHtml (now : Int) (items : List RawEvent) :
    String × String :=
  (upcomingIncludeHtml (categorizeEvents now items).1,
    pastIncludeHtml (categorizeEvents now items).2)

/-! ## Configuration checks (events-fetcher.py lines 42-57,
fetch-events.py lines 27-62) -/

/-- Model of `urllib.parse.quote` with `safe=` (used for the calendar id). -/
def urlQuoteNoSafe (s : String) : String :=
  ⟨(s.data.map fun c =>
      if quoteSafe c && !(c = '/') then [c]
      else ((utf8Bytes c.toNat).map pctByte).flatten).flatten⟩

/-- Model of `urllib.parse.quote_plus` on one string (used by `urlencode`):
spaces become `+`, nothing except letters, digits and `_.-~` passes. -/
def quotePlus (s : String) : String :=
  ⟨(s.data.map fun c =>
      if quoteSafe c && !(c = '/') then [c]
      else if c = ' ' then ['+']
      else ((utf8Bytes c.toNat).map pctByte).flatten).flatten⟩

/-- The request URL built by `fetch_calendar_events`. -/
def feUrl (apiKey calendarId : String) : String :=
  "https://www.googleapis.com/calendar/v3/calendars/" ++
    urlQuoteNoSafe calendarId ++ "/events?key=" ++ quotePlus apiKey ++
    "&maxResults=2500&singleEvents=true&orderBy=startTime"

/--
`fetch_calendar_events` with the HTTP layer abstracted into an oracle
`net` from the request URL to the response body: the configuration check
comes first, so with a falsy key or calendar id the function exits
fatally (`sys.exit(1)`, modelled as `Except.error`) without the oracle
ever being consulted.
-/
def fetchCalendarEvents (apiKey calendarId : String)
    (net : String → String) : Except String String :=
  if apiKey = "" ∨ calendarId = "" then
    .error "ERROR: GOOGLE_CALENDAR_API_KEY and CALENDAR_ID must be set"
  else .ok (net (feUrl apiKey calendarId))

/-- Model of `EventsFetcher.__init__`: raises `ValueError` when the environment
variable is unset (`none`) or empty; otherwise stores the request
parameters. -/
def eventsFetcherInit (apiKey : Option String) :
    Except String (List (String × String)) :=
  if apiKey = none ∨ apiKey = some "" then
    .error "GOOGLE_API_KEY environment variable is required"
  else
    .ok [("key", apiKey.getD ""), ("singleEvents", "true"),
         ("orderBy", "startTime"), ("maxResults", "2500")]

/-! ## build-local.py -/

/-- Characters allowed in an include directive name (`[^\s%}]`). -/
def dirNameOk (c : Char) : Bool :=
  !(pyIsSpace c) && !(c = '%') && !(c = '}')

/--
Attempt to match the regex `\x7b%\s*include\s+([^\s%\x7d]+)\s*%\x7d` at
a position whose `\x7b` has already been consumed; `rest` is the text
after it.  Since the name cannot contain whitespace, `%` or `\x7d`, the
greedy quantifiers never need to backtrack, so maximal munch is exact.
Returns the captured name and the number of characters of `rest`
covered by the match.
-/
def tryDirective (rest : List Char) : Option (List Char × Nat) :=
  match rest with
  | '%' :: r1 =>
    let w1 := r1.takeWhile pyIsSpace
    let r2 := r1.dropWhile pyIsSpace
    if startsList "include".data r2 then
      let r3 := r2.drop 7
      let w2 := r3.takeWhile pyIsSpace
      let r4 := r3.dropWhile pyIsSpace
      if w2.isEmpty then none
      else
        let name := r4.takeWhile dirNameOk
        let r5 := r4.dropWhile dirNameOk
        if name.isEmpty then none
        else
          let w3 := r5.takeWhile pyIsSpace
          let r6 := r5.dropWhile pyIsSpace
          match r6 with
          | '%' :: '}' :: _ =>
            some (name, 1 + w1.length + 7 + w2.length + name.length +
              w3.length + 2)
          | _ => none
    else none
  | _ => none

/-- Replacement text for one directive: the file contents when
`base_dir/<name>` exists, else the visible HTML comment marker. -/
def expandInclude (fs : String → Option String) (name : List Char) :
    List Char :=
  match fs ⟨name⟩ with
  | some content => content.data
  | none => ("<!-- Include file not found: " ++ (⟨name⟩ : String) ++ " -->").data

/-- Scanner step for `process_includes`. -/
def includeStep (fs : String → Option String) (c : Char)
    (rest : List Char) : Option (List Char × Nat) :=
  if c = '{' then
    match tryDirective rest with
    | some (name, k) => some (expandInclude fs name, k)
    | none => none
  else none

/-- Model of `process_includes`, with the `base_path` directory abstracted as the
optional map `fs` from file names to file contents.  `re.sub` replaces
all matches in one left-to-right pass, never rescanning replacements. -/
def processIncludes (fs : String → Option String) (s : String) : String :=
  ⟨pyScan (includeStep fs) 0 s.data⟩

/-- The text of one include directive with explicit whitespace runs:
`\x7b%` ++ w1 ++ `include` ++ w2 ++ name ++ w3 ++ `%\x7d`. -/
def directiveText (w1 w2 name w3 : List Char) : List Char :=
  '{' :: '%' :: (w1 ++
    ('i' :: 'n' :: 'c' :: 'l' :: 'u' :: 'd' :: 'e' ::
      (w2 ++ (name ++ (w3 ++ ['%', '}'])))))

/-- Suffixes of `cs` left after the regex fragment `\s*\n` consumes a
prefix, one for each backtracking choice of the greedy `\s*`, longest
match first. -/
def wsNlSplits (cs : List Char) : List (List Char) :=
  let run := cs.takeWhile pyIsSpace
  ((List.range run.length).reverse).filterMap fun i =>
    if run.getD i ' ' = '\n' then some (cs.drop (i + 1)) else none

/--
Backtracking matcher for `remove_front_matter`s pattern
`^---\s*\n.*?\n---\s*\n` (DOTALL, no MULTILINE, so `^` anchors at
position 0 only): returns the text after the match when the front matter
block is present at the very start.  Choice points are explored in
Pythons order: the first greedy `\s*` longest first, the lazy `.*?`
shortest first, the final greedy `\s*` longest first.
-/
def fmMatch (cs : List Char) : Option (List Char) :=
  if startsList "---".data cs then
    (wsNlSplits (cs.drop 3)).findSome? fun s1 =>
      (List.tails s1).findSome? fun s2 =>
        match s2 with
        | c :: s2a =>
          if c = '\n' then
            if startsList "---".data s2a then (wsNlSplits (s2a.drop 3)).head?
            else none
          else none
        | [] => none
  else none

/-- Model of `remove_front_matter`: `re.sub` deletes the single possible match at
the start of the text; without a match the text passes through. -/
def removeFrontMatter (s : String) : String :=
  match fmMatch s.data with
  | some rest => ⟨rest⟩
  | none => s

/-- Plain text for the sanitizer: no tag opener and no backslash escape,
so both phases of `clean_description` must pass it through verbatim. -/
def plainText (t : List Char) : Prop :=
  ∀ c ∈ t, ¬ c = '<' ∧ ¬ c = '\\'

instance (t : List Char) : Decidable (plainText t) :=
  inferInstanceAs (Decidable (∀ c ∈ t, ¬ c = '<' ∧ ¬ c = '\\'))

/-! ## General lemmas about the scanners -/

theorem pyScan_nil (step : Char → List Char → Option (List Char × Nat))
    (n : Nat) : pyScan step n [] = [] := by
  cases n <;> rfl

theorem pyScan_succ (step : Char → List Char → Option (List Char × Nat))
    (n : Nat) (c : Char) (rest : List Char) :
    pyScan step (n + 1) (c :: rest) = pyScan step n rest := rfl

theorem pyScan_skip (step : Char → List Char → Option (List Char × Nat)) :
    ∀ (cs : List Char) (n : Nat), pyScan step n cs = pyScan step 0 (cs.drop n)
  | [], n => by rw [List.drop_nil, pyScan_nil, pyScan_nil]
  | _ :: _, 0 => by rw [List.drop_zero]
  | c :: rest, n + 1 => by
    rw [pyScan_succ, List.drop_succ_cons]
    exact pyScan_skip step rest n

theorem pyScan_id (step : Char → List Char → Option (List Char × Nat)) :
    ∀ cs : List Char, (∀ c ∈ cs, ∀ r, step c r = none) →
      pyScan step 0 cs = cs
  | [], _ => rfl
  | c :: rest, h => by
    show (match step c rest with
      | some (out, k) => out ++ pyScan step k rest
      | none => c :: pyScan step 0 rest) = c :: rest
    rw [h c (List.mem_cons_self c rest) rest]
    exact congrArg (c :: ·) (pyScan_id step rest fun d hd => h d (List.mem_cons_of_mem c hd))

theorem pyScan_append_none (step : Char → List Char → Option (List Char × Nat)) :
    ∀ (t rest : List Char), (∀ c ∈ t, ∀ r, step c r = none) →
      pyScan step 0 (t ++ rest) = t ++ pyScan step 0 rest
  | [], rest, _ => rfl
  | c :: t, rest, h => by
    show (match step c (t ++ rest) with
      | some (out, k) => out ++ pyScan step k (t ++ rest)
      | none => c :: pyScan step 0 (t ++ rest)) = c :: t ++ pyScan step 0 rest
    rw [h c (List.mem_cons_self c t) (t ++ rest)]
    exact congrArg (c :: ·)
      (pyScan_append_none step t rest fun d hd => h d (List.mem_cons_of_mem c hd))

theorem pyScan_step_some (step : Char → List Char → Option (List Char × Nat))
    (c : Char) (rest out : List Char) (k : Nat)
    (h : step c rest = some (out, k)) :
    pyScan step 0 (c :: rest) = out ++ pyScan step 0 (rest.drop k) := by
  have h1 : pyScan step 0 (c :: rest) = out ++ pyScan step k rest := by
    show (match step c rest with
      | some (out, k) => out ++ pyScan step k rest
      | none => c :: pyScan step 0 rest) = out ++ pyScan step k rest
    rw [h]
  rw [h1, pyScan_skip]

/-! ## Lemmas about `startsList` and `containsSeg` -/

theorem startsList_self_append : ∀ (p t : List Char), startsList p (p ++ t) = true
  | [], _ => rfl
  | c :: p, t => by
    show (c = c && startsList p (p ++ t)) = true
    rw [startsList_self_append p t]
    simp

theorem startsList_exists {p cs : List Char} (h : startsList p cs = true) :
    ∃ t, cs = p ++ t := by
  induction p generalizing cs with
  | nil => exact ⟨cs, rfl⟩
  | cons c p ih =>
    cases cs with
    | nil => exact absurd h (by simp [startsList])
    | cons d cs =>
      have h' : (c = d && startsList p cs) = true := h
      rw [Bool.and_eq_true] at h'
      obtain ⟨t, ht⟩ := ih h'.2
      exact ⟨t, by simp [ht, of_decide_eq_true h'.1]⟩

theorem startsList_append_of (p : List Char) :
    ∀ a b : List Char, startsList p a = true → startsList p (a ++ b) = true := by
  induction p with
  | nil => intro a b _; rfl
  | cons c p ih =>
    intro a b h
    cases a with
    | nil => exact absurd h (by simp [startsList])
    | cons d a =>
      have h' : (c = d && startsList p a) = true := h
      rw [Bool.and_eq_true] at h'
      show (c = d && startsList p (a ++ b)) = true
      rw [ih a b h'.2, Bool.and_true]
      exact h'.1

theorem containsSeg_of_starts {pat cs : List Char}
    (h : startsList pat cs = true) : containsSeg pat cs = true := by
  cases cs with
  | nil => exact h
  | cons c cs =>
    show (startsList pat (c :: cs) || containsSeg pat (c :: cs).tail) = true
    rw [h]
    rfl

theorem containsSeg_append_right (pat : List Char) :
    ∀ a b : List Char, containsSeg pat b = true → containsSeg pat (a ++ b) = true
  | [], _, h => h
  | c :: a, b, h => by
    show (startsList pat (c :: (a ++ b)) || containsSeg pat (a ++ b)) = true
    rw [containsSeg_append_right pat a b h, Bool.or_true]

theorem containsSeg_append_left (pat : List Char) :
    ∀ a b : List Char, containsSeg pat a = true → containsSeg pat (a ++ b) = true
  | [], b, h => by
    cases pat with
    | nil => exact containsSeg_of_starts rfl
    | cons p ps => exact absurd h (by simp [containsSeg, startsList])
  | c :: a, b, h => by
    have h' : (startsList pat (c :: a) || containsSeg pat a) = true := h
    rcases Bool.or_eq_true_iff.mp h' with h1 | h2
    · exact containsSeg_of_starts
        (by have := startsList_append_of pat (c :: a) b h1; simpa using this)
    · show (startsList pat (c :: (a ++ b)) || containsSeg pat (a ++ b)) = true
      rw [containsSeg_append_left pat a b h2, Bool.or_true]

theorem containsSeg_mid (pat a b : List Char) :
    containsSeg pat (a ++ (pat ++ b)) = true :=
  containsSeg_append_right pat a _ (containsSeg_of_starts (startsList_self_append pat b))

/-! ## `takeWhile`/`dropWhile` over explicit decompositions -/

theorem takeWhile_app {α : Type} {p : α → Bool} :
    ∀ (a : List α) (c : α) (b : List α), (∀ x ∈ a, p x = true) → p c = false →
      (a ++ c :: b).takeWhile p = a
  | [], c, b, _, hc => by simp [List.takeWhile, hc]
  | x :: a, c, b, ha, hc => by
    have hx : p x = true := ha x (List.mem_cons_self x a)
    simp only [List.cons_append, List.takeWhile, hx]
    exact congrArg (x :: ·)
      (takeWhile_app a c b (fun y hy => ha y (List.mem_cons_of_mem x hy)) hc)

theorem dropWhile_app {α : Type} {p : α → Bool} :
    ∀ (a : List α) (c : α) (b : List α), (∀ x ∈ a, p x = true) → p c = false →
      (a ++ c :: b).dropWhile p = c :: b
  | [], c, b, _, hc => by simp [List.dropWhile, hc]
  | x :: a, c, b, ha, hc => by
    have hx : p x = true := ha x (List.mem_cons_self x a)
    simp only [List.cons_append, List.dropWhile, hx]
    exact dropWhile_app a c b (fun y hy => ha y (List.mem_cons_of_mem x hy)) hc

/-! ## `str.replace` lemmas -/

theorem replStep_none (p : Char) (ps repl : List Char) (c : Char)
    (rest : List Char) (h : ¬ c = p) :
    replStep (p :: ps) repl c rest = none := by
  have hd : startsList (p :: ps) (c :: rest) = false := by
    show (decide (p = c) && startsList ps rest) = false
    rw [decide_eq_false fun hh => h hh.symm]
    rfl
  simp [replStep, hd]

theorem replaceAllL_id (p : Char) (ps repl cs : List Char) (h : p ∉ cs) :
    replaceAllL (p :: ps) repl cs = cs := by
  show pyScan (replStep (p :: ps) repl) 0 cs = cs
  exact pyScan_id _ cs fun c hc r =>
    replStep_none p ps repl c r (fun hcp => h (hcp ▸ hc))

theorem decodeEntities_id (cs : List Char) (h : '\\' ∉ cs) :
    decodeEntities cs = cs := by
  show replaceAllL "\\u0027".data "\x27".data
      (replaceAllL "\\u0022".data "\"".data
        (replaceAllL "\\u0026".data "&".data
          (replaceAllL "\\u003e".data ">".data
            (replaceAllL "\\u003c".data "<".data cs)))) = cs
  rw [show "\\u003c".data = '\\' :: "u003c".data from rfl, replaceAllL_id _ _ _ _ h]
  rw [show "\\u003e".data = '\\' :: "u003e".data from rfl, replaceAllL_id _ _ _ _ h]
  rw [show "\\u0026".data = '\\' :: "u0026".data from rfl, replaceAllL_id _ _ _ _ h]
  rw [show "\\u0022".data = '\\' :: "u0022".data from rfl, replaceAllL_id _ _ _ _ h]
  rw [show "\\u0027".data = '\\' :: "u0027".data from rfl, replaceAllL_id _ _ _ _ h]

/-! ## `stripTags` lemmas -/

theorem tagStep_none (c : Char) (rest : List Char) (h : ¬ c = '<') :
    tagStep c rest = none := by
  simp [tagStep, h]

theorem stripTags_append (t rest : List Char) (h : ∀ c ∈ t, ¬ c = '<') :
    stripTags (t ++ rest) = t ++ stripTags rest :=
  pyScan_append_none _ t rest fun c hc r => tagStep_none c r (h c hc)

theorem stripTags_id (t : List Char) (h : ∀ c ∈ t, ¬ c = '<') :
    stripTags t = t :=
  pyScan_id _ t fun c hc r => tagStep_none c r (h c hc)

theorem stripTags_script (X : List Char) :
    stripTags ('<' :: 's' :: 'c' :: 'r' :: 'i' :: 'p' :: 't' :: '>' :: X) =
      stripTags X := rfl

theorem stripTags_script_close (X : List Char) :
    stripTags ('<' :: '/' :: 's' :: 'c' :: 'r' :: 'i' :: 'p' :: 't' :: '>' :: X) =
      stripTags X := rfl

theorem stripTags_br (X : List Char) :
    stripTags ('<' :: 'b' :: 'r' :: '>' :: X) =
      '<' :: 'b' :: 'r' :: '>' :: stripTags X := rfl

theorem plainText_no_lt {t : List Char} (h : plainText t) :
    ∀ c ∈ t, ¬ c = '<' := fun c hc => (h c hc).1

theorem plainText_no_bs {t : List Char} (h : plainText t) :
    '\\' ∉ t := fun hm => (h _ hm).2 rfl

/-- Full behaviour of `clean_description` on a disallowed `script`
element embedded in otherwise plain text: both tags are removed and the
text between them is retained. -/
theorem cleanDescription_script (pre mid post : List Char)
    (hpre : plainText pre) (hmid : plainText mid) (hpost : plainText post) :
    cleanDescription (some ⟨pre ++ '<' :: 's' :: 'c' :: 'r' :: 'i' :: 'p' :: 't' :: '>' ::
        (mid ++ '<' :: '/' :: 's' :: 'c' :: 'r' :: 'i' :: 'p' :: 't' :: '>' :: post)⟩) =
      ⟨pre ++ (mid ++ post)⟩ := by
  have hne : (⟨pre ++ '<' :: 's' :: 'c' :: 'r' :: 'i' :: 'p' :: 't' :: '>' ::
      (mid ++ '<' :: '/' :: 's' :: 'c' :: 'r' :: 'i' :: 'p' :: 't' :: '>' :: post)⟩ :
        String) ≠ "" := by
    intro hcontra
    have h0 : pre ++ '<' :: 's' :: 'c' :: 'r' :: 'i' :: 'p' :: 't' :: '>' ::
        (mid ++ '<' :: '/' :: 's' :: 'c' :: 'r' :: 'i' :: 'p' :: 't' :: '>' :: post) =
        ([] : List Char) := congrArg String.data hcontra
    exact absurd (List.append_eq_nil.mp h0).2 (by simp)
  have hbs : '\\' ∉ pre ++ '<' :: 's' :: 'c' :: 'r' :: 'i' :: 'p' :: 't' :: '>' ::
      (mid ++ '<' :: '/' :: 's' :: 'c' :: 'r' :: 'i' :: 'p' :: 't' :: '>' :: post) := by
    intro hmem
    simp [List.mem_append, List.mem_cons, plainText_no_bs hpre,
      plainText_no_bs hmid, plainText_no_bs hpost] at hmem
  show (if (⟨_⟩ : String) = "" then "" else _) = _
  rw [if_neg hne]
  show (⟨stripTags (decodeEntities _)⟩ : String) = _
  rw [decodeEntities_id _ hbs,
    stripTags_append _ _ (plainText_no_lt hpre), stripTags_script,
    stripTags_append _ _ (plainText_no_lt hmid), stripTags_script_close,
    stripTags_id _ (plainText_no_lt hpost)]

/-- Full behaviour of `clean_description` on an allow-listed `<br>` tag
in plain text: the tag is preserved verbatim. -/
theorem cleanDescription_br (pre post : List Char)
    (hpre : plainText pre) (hpost : plainText post) :
    cleanDescription (some ⟨pre ++ '<' :: 'b' :: 'r' :: '>' :: post⟩) =
      ⟨pre ++ '<' :: 'b' :: 'r' :: '>' :: post⟩ := by
  have hne : (⟨pre ++ '<' :: 'b' :: 'r' :: '>' :: post⟩ : String) ≠ "" := by
    intro hcontra
    have h0 : pre ++ '<' :: 'b' :: 'r' :: '>' :: post = ([] : List Char) :=
      congrArg String.data hcontra
    exact absurd (List.append_eq_nil.mp h0).2 (by simp)
  have hbs : '\\' ∉ pre ++ '<' :: 'b' :: 'r' :: '>' :: post := by
    intro hmem
    simp [List.mem_append, List.mem_cons, plainText_no_bs hpre,
      plainText_no_bs hpost] at hmem
  show (if (⟨_⟩ : String) = "" then "" else _) = _
  rw [if_neg hne]
  show (⟨stripTags (decodeEntities _)⟩ : String) = _
  rw [decodeEntities_id _ hbs,
    stripTags_append _ _ (plainText_no_lt hpre), stripTags_br,
    stripTags_id _ (plainText_no_lt hpost)]

/--
C4, counterexample: the description
`"a <script>x</script> b"` sanitizes to `"a x b"`
(the text `x` between the removed tags is retained, exactly as the
claims general part states), so the result does not contain the
literal text `"a  b"` that the claims example asserts.
-/
theorem C4_counterexample :
    cleanDescription (some "a \\u003cscript\\u003ex\\u003c/script\\u003e b") =
      "a x b" ∧
    containsSeg "a  b".data
      (cleanDescription
        (some "a \\u003cscript\\u003ex\\u003c/script\\u003e b")).data = false := by
  constructor
  · decide
  · decide

/--
C4, amended: `clean_description` first decodes the five backslash-escaped
sequences into `< > & " ` and then removes every HTML tag whose
(case-insensitively matched) name is outside the allow-list, keeping
allowed tags verbatim with their attributes and retaining the text
between removed tags.  In particular a `script` element in plain text
loses both tags but keeps its inner text (`"a ... b"` yields `"a x b"`,
not `"a  b"`), a `<br>` in plain text is preserved verbatim, and the two
spec examples evaluate accordingly.
-/
theorem C4_amended :
    (∀ pre mid post : List Char,
      plainText pre → plainText mid → plainText post →
      cleanDescription
        (some ⟨pre ++ '<' :: 's' :: 'c' :: 'r' :: 'i' :: 'p' :: 't' :: '>' ::
          (mid ++ '<' :: '/' :: 's' :: 'c' :: 'r' :: 'i' :: 'p' :: 't' :: '>' :: post)⟩) =
        ⟨pre ++ (mid ++ post)⟩) ∧
    (∀ pre post : List Char, plainText pre → plainText post →
      cleanDescription (some ⟨pre ++ '<' :: 'b' :: 'r' :: '>' :: post⟩) =
        ⟨pre ++ '<' :: 'b' :: 'r' :: '>' :: post⟩) ∧
    cleanDescription (some "a \\u003cscript\\u003ex\\u003c/script\\u003e b") =
      "a x b" ∧
    cleanDescription (some "\\u003cbr\\u003e") = "<br>" ∧
    cleanDescription (some "<a href=\"u\">t</a><DIV>z</DIV>") =
      "<a href=\"u\">t</a>z" :=
  ⟨cleanDescription_script, cleanDescription_br, by decide, by decide, by decide⟩

/-- C4, witness: the amended theorem applied at concrete plain-text
segments around a `script` element. -/
theorem C4_witness :
    cleanDescription
      (some ⟨"u ".data ++ '<' :: 's' :: 'c' :: 'r' :: 'i' :: 'p' :: 't' :: '>' ::
        ("mm".data ++ '<' :: '/' :: 's' :: 'c' :: 'r' :: 'i' :: 'p' :: 't' :: '>' ::
          " v".data)⟩) = ⟨"u ".data ++ ("mm".data ++ " v".data)⟩ :=
  C4_amended.1 "u ".data "mm".data " v".data (by decide) (by decide) (by decide)

/-! ## `process_includes` lemmas -/

theorem dirNameOk_not_space {c : Char} (h : dirNameOk c = true) :
    pyIsSpace c = false := by
  simp [dirNameOk] at h
  exact h.1.1

theorem space_not_dirNameOk {c : Char} (h : pyIsSpace c = true) :
    dirNameOk c = false := by
  simp [dirNameOk, h]

theorem includeStep_none (fs : String → Option String) (c : Char)
    (rest : List Char) (h : ¬ c = '{') : includeStep fs c rest = none := by
  simp [includeStep, h]

theorem tryDirective_eval (w1 w2 name w3 post : List Char)
    (hw1 : ∀ c ∈ w1, pyIsSpace c = true)
    (hw2 : ∀ c ∈ w2, pyIsSpace c = true) (hw2ne : w2 ≠ [])
    (hw3 : ∀ c ∈ w3, pyIsSpace c = true)
    (hname : ∀ c ∈ name, dirNameOk c = true) (hnamene : name ≠ []) :
    tryDirective ('%' :: (w1 ++
        ('i' :: 'n' :: 'c' :: 'l' :: 'u' :: 'd' :: 'e' ::
          (w2 ++ (name ++ (w3 ++ '%' :: '}' :: post)))))) =
      some (name, 1 + w1.length + 7 + w2.length + name.length + w3.length + 2) := by
  obtain ⟨n0, name', rfl⟩ : ∃ n0 name', name = n0 :: name' := by
    cases name with
    | nil => exact absurd rfl hnamene
    | cons a b => exact ⟨a, b, rfl⟩
  have hn0 : dirNameOk n0 = true := hname n0 (List.mem_cons_self n0 name')
  have hn0sp : pyIsSpace n0 = false := dirNameOk_not_space hn0
  have e1 : (w1 ++ ('i' :: 'n' :: 'c' :: 'l' :: 'u' :: 'd' :: 'e' ::
      (w2 ++ (n0 :: name' ++ (w3 ++ '%' :: '}' :: post))))).takeWhile pyIsSpace = w1 :=
    takeWhile_app w1 'i' _ hw1 rfl
  have e2 : (w1 ++ ('i' :: 'n' :: 'c' :: 'l' :: 'u' :: 'd' :: 'e' ::
      (w2 ++ (n0 :: name' ++ (w3 ++ '%' :: '}' :: post))))).dropWhile pyIsSpace =
      'i' :: 'n' :: 'c' :: 'l' :: 'u' :: 'd' :: 'e' ::
        (w2 ++ (n0 :: name' ++ (w3 ++ '%' :: '}' :: post))) :=
    dropWhile_app w1 'i' _ hw1 rfl
  have e3 : startsList "include".data
      ('i' :: 'n' :: 'c' :: 'l' :: 'u' :: 'd' :: 'e' ::
        (w2 ++ (n0 :: name' ++ (w3 ++ '%' :: '}' :: post)))) = true :=
    startsList_self_append "include".data _
  have e5 : (w2 ++ (n0 :: name' ++ (w3 ++ '%' :: '}' :: post))).takeWhile pyIsSpace
      = w2 := takeWhile_app w2 n0 _ hw2 hn0sp
  have e6 : (w2 ++ (n0 :: name' ++ (w3 ++ '%' :: '}' :: post))).dropWhile pyIsSpace
      = n0 :: name' ++ (w3 ++ '%' :: '}' :: post) :=
    dropWhile_app w2 n0 _ hw2 hn0sp
  have hw2e : w2.isEmpty = false := by
    cases w2 with
    | nil => exact absurd rfl hw2ne
    | cons a b => rfl
  have e7 : (n0 :: name' ++ (w3 ++ '%' :: '}' :: post)).takeWhile dirNameOk =
      n0 :: name' := by
    cases w3 with
    | nil => exact takeWhile_app (n0 :: name') '%' _ hname rfl
    | cons c3 w3' =>
      exact takeWhile_app (n0 :: name') c3 _ hname
        (space_not_dirNameOk (hw3 c3 (List.mem_cons_self c3 w3')))
  have e8 : (n0 :: name' ++ (w3 ++ '%' :: '}' :: post)).dropWhile dirNameOk =
      w3 ++ '%' :: '}' :: post := by
    cases w3 with
    | nil => exact dropWhile_app (n0 :: name') '%' _ hname rfl
    | cons c3 w3' =>
      exact dropWhile_app (n0 :: name') c3 _ hname
        (space_not_dirNameOk (hw3 c3 (List.mem_cons_self c3 w3')))
  have e9 : (w3 ++ '%' :: '}' :: post).takeWhile pyIsSpace = w3 :=
    takeWhile_app w3 '%' _ hw3 rfl
  have e10 : (w3 ++ '%' :: '}' :: post).dropWhile pyIsSpace = '%' :: '}' :: post :=
    dropWhile_app w3 '%' _ hw3 rfl
  simp only [tryDirective, e1, e2, e3, e5, e6, e7, e8, e9, e10, hw2e,
    if_true, Bool.false_eq_true, if_false, List.isEmpty_cons, List.drop_succ_cons,
    List.drop_zero, List.length_cons]

theorem processIncludes_dir (fs : String → Option String)
    (pre w1 w2 name w3 post : List Char)
    (hpre : ∀ c ∈ pre, ¬ c = '{')
    (hw1 : ∀ c ∈ w1, pyIsSpace c = true)
    (hw2 : ∀ c ∈ w2, pyIsSpace c = true) (hw2ne : w2 ≠ [])
    (hw3 : ∀ c ∈ w3, pyIsSpace c = true)
    (hname : ∀ c ∈ name, dirNameOk c = true) (hnamene : name ≠ []) :
    pyScan (includeStep fs) 0 (pre ++ (directiveText w1 w2 name w3 ++ post)) =
      pre ++ (expandInclude fs name ++ pyScan (includeStep fs) 0 post) := by
  rw [pyScan_append_none _ pre _ fun c hc r => includeStep_none fs c r (hpre c hc)]
  have hform : directiveText w1 w2 name w3 ++ post =
      '{' :: '%' :: (w1 ++
        ('i' :: 'n' :: 'c' :: 'l' :: 'u' :: 'd' :: 'e' ::
          (w2 ++ (name ++ (w3 ++ '%' :: '}' :: post))))) := by
    simp [directiveText, List.append_assoc]
  rw [hform]
  have hstep : includeStep fs '{'
      ('%' :: (w1 ++
        ('i' :: 'n' :: 'c' :: 'l' :: 'u' :: 'd' :: 'e' ::
          (w2 ++ (name ++ (w3 ++ '%' :: '}' :: post)))))) =
      some (expandInclude fs name,
        1 + w1.length + 7 + w2.length + name.length + w3.length + 2) := by
    rw [includeStep, tryDirective_eval w1 w2 name w3 post hw1 hw2 hw2ne hw3 hname
      hnamene]
    rfl
  rw [pyScan_step_some _ _ _ _ _ hstep]
  have hdrop : ('%' :: (w1 ++
      ('i' :: 'n' :: 'c' :: 'l' :: 'u' :: 'd' :: 'e' ::
        (w2 ++ (name ++ (w3 ++ '%' :: '}' :: post)))))).drop
        (1 + w1.length + 7 + w2.length + name.length + w3.length + 2) = post := by
    have hsplit : '%' :: (w1 ++
        ('i' :: 'n' :: 'c' :: 'l' :: 'u' :: 'd' :: 'e' ::
          (w2 ++ (name ++ (w3 ++ '%' :: '}' :: post))))) =
        ('%' :: (w1 ++
          ('i' :: 'n' :: 'c' :: 'l' :: 'u' :: 'd' :: 'e' ::
            (w2 ++ (name ++ (w3 ++ ['%', '}'])))))) ++ post := by
      simp [List.append_assoc]
    rw [hsplit, List.drop_left']
    simp only [List.length_cons, List.length_append, List.length_nil]
    omega
  rw [hdrop]

/--
C7: `process_includes` replaces every occurrence of a whitespace-tolerant
include directive with the exact contents of the named file when the
file map has it, and with the visible HTML comment marker naming the
missing file otherwise; the function is total (never aborts), and since
the replacement text is never rescanned, a directive inside included
file contents is not expanded (the `content` below is arbitrary and is
emitted verbatim).
-/
theorem C7_includes :
    (∀ (fs : String → Option String) (pre w1 w2 name w3 post : List Char)
      (content : String),
      (∀ c ∈ pre, ¬ c = '{') →
      (∀ c ∈ w1, pyIsSpace c = true) →
      (∀ c ∈ w2, pyIsSpace c = true) → w2 ≠ [] →
      (∀ c ∈ w3, pyIsSpace c = true) →
      (∀ c ∈ name, dirNameOk c = true) → name ≠ [] →
      fs ⟨name⟩ = some content →
      processIncludes fs ⟨pre ++ (directiveText w1 w2 name w3 ++ post)⟩ =
        ⟨pre ++ (content.data ++ (processIncludes fs ⟨post⟩).data)⟩) ∧
    (∀ (fs : String → Option String) (pre w1 w2 name w3 post : List Char),
      (∀ c ∈ pre, ¬ c = '{') →
      (∀ c ∈ w1, pyIsSpace c = true) →
      (∀ c ∈ w2, pyIsSpace c = true) → w2 ≠ [] →
      (∀ c ∈ w3, pyIsSpace c = true) →
      (∀ c ∈ name, dirNameOk c = true) → name ≠ [] →
      fs ⟨name⟩ = none →
      processIncludes fs ⟨pre ++ (directiveText w1 w2 name w3 ++ post)⟩ =
        ⟨pre ++ (("<!-- Include file not found: " ++ (⟨name⟩ : String) ++
          " -->").data ++ (processIncludes fs ⟨post⟩).data)⟩) := by
  constructor
  · intro fs pre w1 w2 name w3 post content hpre hw1 hw2 hw2ne hw3 hname hnamene hfs
    have h := processIncludes_dir fs pre w1 w2 name w3 post hpre hw1 hw2 hw2ne hw3
      hname hnamene
    show (⟨pyScan (includeStep fs) 0
      (pre ++ (directiveText w1 w2 name w3 ++ post))⟩ : String) = _
    rw [h]
    simp [expandInclude, hfs, processIncludes]
  · intro fs pre w1 w2 name w3 post hpre hw1 hw2 hw2ne hw3 hname hnamene hfs
    have h := processIncludes_dir fs pre w1 w2 name w3 post hpre hw1 hw2 hw2ne hw3
      hname hnamene
    show (⟨pyScan (includeStep fs) 0
      (pre ++ (directiveText w1 w2 name w3 ++ post))⟩ : String) = _
    rw [h]
    simp [expandInclude, hfs, processIncludes]

/-! ## `remove_front_matter` lemmas -/

theorem wsNlSplits_suffix {cs s : List Char} (h : s ∈ wsNlSplits cs) :
    s <:+ cs := by
  simp only [wsNlSplits, List.mem_filterMap] at h
  obtain ⟨i, _, hf⟩ := h
  by_cases hc : (cs.takeWhile pyIsSpace).getD i ' ' = '\n'
  · rw [if_pos hc] at hf
    exact (Option.some.injEq _ _ ▸ hf) ▸ List.drop_suffix (i + 1) cs
  · rw [if_neg hc] at hf
    exact absurd hf (by simp)

theorem fmMatch_none_of_no_dashes (cs : List Char)
    (h : startsList "---".data cs = false) : fmMatch cs = none := by
  simp [fmMatch, h]

theorem fmMatch_suffix (cs r : List Char) (h : fmMatch cs = some r) :
    ∃ pre, cs = pre ++ r ∧ startsList "---".data pre = true := by
  cases hsl : startsList "---".data cs with
  | false => rw [fmMatch_none_of_no_dashes cs hsl] at h; exact absurd h (by simp)
  | true =>
    obtain ⟨t, ht⟩ := startsList_exists hsl
    simp only [fmMatch, hsl, if_true] at h
    obtain ⟨s1, hs1mem, hs1⟩ := List.exists_of_findSome?_eq_some h
    obtain ⟨s2, hs2mem, hs2⟩ := List.exists_of_findSome?_eq_some hs1
    cases s2 with
    | nil => exact absurd hs2 (by simp)
    | cons c s2a =>
      have hs2' : (if c = '\n' then
          (if startsList "---".data s2a then (wsNlSplits (s2a.drop 3)).head?
            else none)
          else none) = some r := hs2
      by_cases hc : c = '\n'
      · subst hc
        rw [if_pos rfl] at hs2'
        cases hsl2 : startsList "---".data s2a with
        | false =>
          rw [if_neg (by simp [hsl2])] at hs2'
          exact absurd hs2' (by simp)
        | true =>
          rw [if_pos hsl2] at hs2'
          have hrs : r <:+ s2a.drop 3 :=
            wsNlSplits_suffix (List.mem_of_mem_head? hs2')
          have h1 : r <:+ s2a := hrs.trans (List.drop_suffix 3 s2a)
          have h2 : r <:+ '\n' :: s2a := h1.trans ⟨['\n'], rfl⟩
          have h3 : r <:+ s1 := h2.trans ((List.mem_tails _ _).mp hs2mem)
          have h4 : r <:+ cs.drop 3 := h3.trans (wsNlSplits_suffix hs1mem)
          obtain ⟨q, hq⟩ := h4
          refine ⟨"---".data ++ q, ?_, startsList_self_append "---".data q⟩
          have hdrop : cs.drop 3 = t := by
            rw [ht]; exact List.drop_left' rfl
          have hqt : q ++ r = t := hq.trans hdrop
          rw [ht, ← hqt, List.append_assoc]
      · rw [if_neg hc] at hs2'
        exact absurd hs2' (by simp)

/--
C8: `remove_front_matter` deletes a triple-dash front matter block only
when it matches at the very start of the input: text not starting with
`---` passes through unchanged, and in every case the function either
returns its input or removes a single leading prefix beginning with
`---`, leaving the remainder (including any later delimited block)
byte-for-byte intact; a leading block that is present is deleted.
-/
theorem C8_removeFrontMatter :
    (∀ s : String, startsList "---".data s.data = false →
      removeFrontMatter s = s) ∧
    (∀ s : String, removeFrontMatter s = s ∨
      ∃ pre, s.data = pre ++ (removeFrontMatter s).data ∧
        startsList "---".data pre = true) ∧
    removeFrontMatter "---\ntitle: x\n---\nbody" = "body" ∧
    removeFrontMatter "intro\n---\na\n---\nrest" = "intro\n---\na\n---\nrest" := by
  refine ⟨?_, ?_, by decide, by decide⟩
  · intro s h
    simp [removeFrontMatter, fmMatch_none_of_no_dashes _ h]
  · intro s
    cases hm : fmMatch s.data with
    | none => exact Or.inl (by simp [removeFrontMatter, hm])
    | some r =>
      obtain ⟨pre, hp, hs⟩ := fmMatch_suffix _ _ hm
      exact Or.inr ⟨pre, by simp [removeFrontMatter, hm, ← hp], hs⟩

/-- C8, witness: the theorem applied at concrete inputs without and with
a later front matter block. -/
theorem C8_witness :
    removeFrontMatter "plain text" = "plain text" ∧
    removeFrontMatter "body\n---\nk: v\n---\nmore" =
      "body\n---\nk: v\n---\nmore" :=
  ⟨C8_removeFrontMatter.1 "plain text" (by decide),
    C8_removeFrontMatter.1 "body\n---\nk: v\n---\nmore" (by decide)⟩

theorem startsList_refl (p : List Char) : startsList p p = true := by
  have h := startsList_self_append p []
  simpa using h

/-! ## Lemmas about the stable insertion sort -/

theorem mem_sInsert {α : Type} (le : α → α → Bool) (a x : α) :
    ∀ l : List α, x ∈ sInsert le a l ↔ x = a ∨ x ∈ l
  | [] => by simp [sInsert]
  | b :: l => by
    by_cases h : le a b = true
    · simp only [sInsert, if_pos h]
      simp [List.mem_cons]
    · simp only [sInsert, if_neg h]
      simp only [List.mem_cons, mem_sInsert le a x l]
      tauto

theorem length_sInsert {α : Type} (le : α → α → Bool) (a : α) :
    ∀ l : List α, (sInsert le a l).length = l.length + 1
  | [] => rfl
  | b :: l => by
    by_cases h : le a b = true
    · simp [sInsert, if_pos h]
    · simp [sInsert, if_neg h, length_sInsert le a l]

theorem length_sSort {α : Type} (le : α → α → Bool) :
    ∀ l : List α, (sSort le l).length = l.length
  | [] => rfl
  | a :: l => by
    simp [sSort, length_sInsert, length_sSort le l]

theorem mem_sSort {α : Type} (le : α → α → Bool) (x : α) :
    ∀ l : List α, x ∈ sSort le l ↔ x ∈ l
  | [] => Iff.rfl
  | a :: l => by
    simp only [sSort, mem_sInsert, mem_sSort le x l, List.mem_cons]

theorem pairwise_sInsert {α : Type} (le : α → α → Bool)
    (htot : ∀ a b, le a b = true ∨ le b a = true)
    (htrans : ∀ a b c, le a b = true → le b c = true → le a c = true) (a : α) :
    ∀ l : List α, l.Pairwise (fun x y => le x y = true) →
      (sInsert le a l).Pairwise (fun x y => le x y = true)
  | [], _ => by simp [sInsert]
  | b :: l, hp => by
    rcases List.pairwise_cons.mp hp with ⟨hb, hl⟩
    by_cases h : le a b = true
    · simp only [sInsert, if_pos h]
      refine List.pairwise_cons.mpr ⟨?_, hp⟩
      intro y hy
      rcases List.mem_cons.mp hy with rfl | hyl
      · exact h
      · exact htrans a b y h (hb y hyl)
    · simp only [sInsert, if_neg h]
      refine List.pairwise_cons.mpr
        ⟨?_, pairwise_sInsert le htot htrans a l hl⟩
      intro y hy
      rcases (mem_sInsert le a y l).mp hy with hya | hyl
      · subst hya
        rcases htot y b with h1 | h1
        · exact absurd h1 h
        · exact h1
      · exact hb y hyl

theorem pairwise_sSort {α : Type} (le : α → α → Bool)
    (htot : ∀ a b, le a b = true ∨ le b a = true)
    (htrans : ∀ a b c, le a b = true → le b c = true → le a c = true) :
    ∀ l : List α, (sSort le l).Pairwise (fun x y => le x y = true)
  | [] => by simp [sSort]
  | a :: l =>
    pairwise_sInsert le htot htrans a (sSort le l)
      (pairwise_sSort le htot htrans l)

theorem filter_sInsert_pos {α : Type} (le : α → α → Bool) (p : α → Bool)
    (a : α) (hpa : p a = true) (hkey : ∀ b, p b = true → le a b = true) :
    ∀ l : List α, (sInsert le a l).filter p = a :: l.filter p
  | [] => by simp [sInsert, hpa]
  | b :: l => by
    by_cases h : le a b = true
    · simp only [sInsert, if_pos h]
      simp [List.filter_cons, hpa]
    · have hpb : p b = false := by
        cases hpb : p b with
        | true => exact absurd (hkey b hpb) h
        | false => rfl
      simp only [sInsert, if_neg h]
      simp [List.filter_cons, hpb, filter_sInsert_pos le p a hpa hkey l]

theorem filter_sInsert_neg {α : Type} (le : α → α → Bool) (p : α → Bool)
    (a : α) (hpa : p a = false) :
    ∀ l : List α, (sInsert le a l).filter p = l.filter p
  | [] => by simp [sInsert, hpa]
  | b :: l => by
    by_cases h : le a b = true
    · simp [sInsert, if_pos h, List.filter_cons, hpa]
    · simp [sInsert, if_neg h, List.filter_cons,
        filter_sInsert_neg le p a hpa l]

/-- Stability of the insertion sort: for any key class in which the
comparator always holds (ties), the filtered subsequence is untouched. -/
theorem filter_sSort {α : Type} (le : α → α → Bool) (p : α → Bool)
    (hkey : ∀ a b, p a = true → p b = true → le a b = true) :
    ∀ l : List α, (sSort le l).filter p = l.filter p
  | [] => rfl
  | a :: l => by
    cases hpa : p a with
    | true =>
      show (sInsert le a (sSort le l)).filter p = _
      rw [filter_sInsert_pos le p a hpa (fun b hb => hkey a b hpa hb) (sSort le l),
        filter_sSort le p hkey l]
      simp [List.filter_cons, hpa]
    | false =>
      show (sInsert le a (sSort le l)).filter p = _
      rw [filter_sInsert_neg le p a hpa (sSort le l), filter_sSort le p hkey l]
      simp [List.filter_cons, hpa]

/-! ## The string key order -/

theorem listLe_refl : ∀ l : List Char, listLe l l = true
  | [] => rfl
  | a :: l => by simp [listLe, listLe_refl l]

theorem listLe_total : ∀ a b : List Char, listLe a b = true ∨ listLe b a = true
  | [], _ => Or.inl rfl
  | _ :: _, [] => Or.inr rfl
  | a :: as, b :: bs => by
    rcases Nat.lt_trichotomy a.toNat b.toNat with h | h | h
    · exact Or.inl (by simp [listLe, h])
    · rcases listLe_total as bs with h2 | h2
      · exact Or.inl (by simp [listLe, h, Nat.lt_irrefl, h2])
      · exact Or.inr (by simp [listLe, h, Nat.lt_irrefl, h2])
    · exact Or.inr (by simp [listLe, h])

theorem listLe_trans :
    ∀ a b c : List Char, listLe a b = true → listLe b c = true →
      listLe a c = true
  | [], _, _ => fun _ _ => rfl
  | _ :: _, [], _ => fun h _ => absurd h (by simp [listLe])
  | _ :: _, _ :: _, [] => fun _ h => absurd h (by simp [listLe])
  | a :: as, b :: bs, c :: cs => fun h1 h2 => by
    simp only [listLe] at h1 h2 ⊢
    split_ifs at h1 h2 ⊢ <;>
      first
        | rfl
        | exact Bool.noConfusion h1
        | exact Bool.noConfusion h2
        | (exfalso; omega)
        | exact listLe_trans as bs cs h1 h2

/-! ## Key-order instances and partition lemmas -/

theorem keyLeUp_total (a b : NormEvent) :
    keyLeUp a b = true ∨ keyLeUp b a = true := listLe_total _ _

theorem keyLeUp_trans (a b c : NormEvent) (h1 : keyLeUp a b = true)
    (h2 : keyLeUp b c = true) : keyLeUp a c = true := listLe_trans _ _ _ h1 h2

theorem keyLeDown_total (a b : NormEvent) :
    keyLeDown a b = true ∨ keyLeDown b a = true := (listLe_total _ _).symm

theorem keyLeDown_trans (a b c : NormEvent) (h1 : keyLeDown a b = true)
    (h2 : keyLeDown b c = true) : keyLeDown a c = true :=
  listLe_trans _ _ _ h2 h1

theorem keyLeUp_of_beq {k : String} {a b : NormEvent}
    (ha : (a.start == k) = true) (hb : (b.start == k) = true) :
    keyLeUp a b = true := by
  show listLe a.start.data b.start.data = true
  rw [eq_of_beq ha, eq_of_beq hb]
  exact listLe_refl _

theorem keyLeDown_of_beq {k : String} {a b : NormEvent}
    (ha : (a.start == k) = true) (hb : (b.start == k) = true) :
    keyLeDown a b = true := by
  show listLe b.start.data a.start.data = true
  rw [eq_of_beq ha, eq_of_beq hb]
  exact listLe_refl _

theorem processEvent_start (ev : RawEvent) :
    (processEvent ev).start = extractStart ev := rfl

theorem eventsFetcherPartition_length (now : Int) :
    ∀ evs : List RawEvent,
      ((eventsFetcherPartition now evs).1).length +
        ((eventsFetcherPartition now evs).2).length = evs.length
  | [] => rfl
  | ev :: rest => by
    have ih := eventsFetcherPartition_length now rest
    by_cases h : classifyEF now (processEvent ev).start = true
    · simp only [eventsFetcherPartition, if_pos h, List.length_cons]
      omega
    · simp only [eventsFetcherPartition, if_neg h, List.length_cons]
      omega

theorem eventsFetcherPartition_filter (now : Int) :
    ∀ evs : List RawEvent,
      (eventsFetcherPartition now evs).1 =
        (evs.map processEvent).filter (fun pe => classifyEF now pe.start) ∧
      (eventsFetcherPartition now evs).2 =
        (evs.map processEvent).filter (fun pe => !(classifyEF now pe.start))
  | [] => ⟨rfl, rfl⟩
  | ev :: rest => by
    have ih := eventsFetcherPartition_filter now rest
    by_cases h : classifyEF now (processEvent ev).start = true
    · constructor <;>
        simp [eventsFetcherPartition, h, List.filter_cons, ih.1, ih.2]
    · have h' : classifyEF now (processEvent ev).start = false := by
        simpa using h
      constructor <;>
        simp [eventsFetcherPartition, h, h', List.filter_cons, ih.1, ih.2]

theorem mem_partition_upcoming (now : Int) :
    ∀ (evs : List RawEvent) (ev : RawEvent), ev ∈ evs →
      classifyEF now (processEvent ev).start = true →
      processEvent ev ∈ (eventsFetcherPartition now evs).1
  | [], _, hmem, _ => absurd hmem (by simp)
  | e :: rest, ev, hmem, hcl => by
    rcases List.mem_cons.mp hmem with rfl | hmem'
    · simp only [eventsFetcherPartition, if_pos hcl]
      exact List.mem_cons_self _ _
    · by_cases h : classifyEF now (processEvent e).start = true
      · simp only [eventsFetcherPartition, if_pos h]
        exact List.mem_cons_of_mem _
          (mem_partition_upcoming now rest ev hmem' hcl)
      · simp only [eventsFetcherPartition, if_neg h]
        exact mem_partition_upcoming now rest ev hmem' hcl

/-! ## Claim C1: partition totality and fail-open placement -/

/--
C1, counterexample: in `categorize_events` (fetch-events.py) an event
whose start object is entirely missing is skipped by the
`if not start_str: continue`, so it lands in neither bucket and
`|upcoming| + |past|` is 0 for a one-event input, not 1 — the claims
"every fetched input event is placed into exactly one of the two
buckets" fails for this pipeline.
-/
theorem C1_counterexample :
    ((categorizeEvents 0 [⟨some "X", none, none, none, none, none⟩]).1).length +
      ((categorizeEvents 0 [⟨some "X", none, none, none, none, none⟩]).2).length ≠
      [(⟨some "X", none, none, none, none, none⟩ : RawEvent)].length := by
  decide

/--
C1, amended: in `events-fetcher.py` the claim holds — every fetched
event lands in exactly one bucket (`|upcoming| + |past|` equals the
input length even after sorting) and an event whose start string does
not parse is placed into `upcoming`; in `fetch-events.py`, however, an
event classified as skipped (missing, falsy, unparseable or naive start)
is dropped from both buckets with a warning.
-/
theorem C1_amended :
    (∀ (now : Int) (evs : List RawEvent),
      ((eventsFetcherRun now evs).1).length +
        ((eventsFetcherRun now evs).2).length = evs.length) ∧
    (∀ (now : Int) (evs : List RawEvent) (ev : RawEvent), ev ∈ evs →
      fromIso (zfix (extractStart ev)) = none →
      processEvent ev ∈ (eventsFetcherRun now evs).1) ∧
    (∀ (now : Int) (ev : RawEvent) (rest : List RawEvent),
      classifyFE now ev = .skipped →
      categorizeEvents now (ev :: rest) = categorizeEvents now rest) := by
  refine ⟨?_, ?_, ?_⟩
  · intro now evs
    show (sSort keyLeUp _).length + (sSort keyLeDown _).length = _
    rw [length_sSort, length_sSort]
    exact eventsFetcherPartition_length now evs
  · intro now evs ev hmem hparse
    have hcl : classifyEF now (processEvent ev).start = true := by
      rw [processEvent_start]
      simp [classifyEF, hparse]
    show processEvent ev ∈ sSort keyLeUp (eventsFetcherPartition now evs).1
    exact (mem_sSort keyLeUp _ _).mpr (mem_partition_upcoming now evs ev hmem hcl)
  · intro now ev rest h
    simp [categorizeEvents, h]

/-- C1, witness: the amended theorem applied at an unparseable-start
event in the events-fetcher pipeline and at a skipped event of the
fetch-events pipeline. -/
theorem C1_witness :
    processEvent ⟨some "X", none, none, none, some ⟨some "nope", none, none⟩,
        none⟩ ∈
      (eventsFetcherRun 0 [⟨some "X", none, none, none,
        some ⟨some "nope", none, none⟩, none⟩]).1 ∧
    categorizeEvents 0 [⟨some "X", none, none, none, none, none⟩] =
      categorizeEvents 0 [] :=
  ⟨C1_amended.2.1 0 _ _ (List.mem_cons_self _ _) (by decide),
    C1_amended.2.2 0 _ [] (by decide)⟩

/-! ## Claim C2: the classification rule against a single `now` -/

/--
C2: both categorizers compare each events parsed start instant against
the single `now` parameter threaded through the whole run (the partition
equals a filter of the input by a per-event predicate in `now`, so no
re-sampling can occur); for a start that parses to an aware instant the
event is `upcoming` iff `start >= now`, in particular a start exactly
equal to `now` is `upcoming`, and for instants `s < now <= e` the event
starting at `s` is `past` while the one starting at `e` is `upcoming`;
the same comparison decides `categorize_events` in fetch-events.py.
-/
theorem C2_classification :
    (∀ (now : Int) (evs : List RawEvent),
      eventsFetcherPartition now evs =
        ((evs.map processEvent).filter (fun pe => classifyEF now pe.start),
          (evs.map processEvent).filter
            (fun pe => !(classifyEF now pe.start)))) ∧
    (∀ (now : Int) (s : String) (dt : PyDateTime) (off : Int),
      fromIso (zfix s) = some dt → dt.offset = some off →
      (classifyEF now s = true ↔ now ≤ utcMicros dt)) ∧
    (∀ (now : Int) (s : String) (dt : PyDateTime) (off : Int),
      fromIso (zfix s) = some dt → dt.offset = some off →
      utcMicros dt = now → classifyEF now s = true) ∧
    (∀ (now : Int) (s e : String) (ds de : PyDateTime) (offs offe : Int),
      fromIso (zfix s) = some ds → ds.offset = some offs →
      fromIso (zfix e) = some de → de.offset = some offe →
      utcMicros ds < now → now ≤ utcMicros de →
      classifyEF now s = false ∧ classifyEF now e = true) ∧
    (∀ (now : Int) (ev : RawEvent) (s : String) (dt : PyDateTime) (off : Int),
      startStrFE ev = some s → ¬ s = "" → strContains s "T" = true →
      fromIso (zfix s) = some dt → dt.offset = some off →
      (classifyFE now ev = .upcoming ↔ now ≤ utcMicros dt)) := by
  refine ⟨?_, ?_, ?_, ?_, ?_⟩
  · intro now evs
    have h := eventsFetcherPartition_filter now evs
    exact Prod.ext h.1 h.2
  · intro now s dt off hdt hoff
    simp [classifyEF, hdt, hoff]
  · intro now s dt off hdt hoff heq
    simp [classifyEF, hdt, hoff, heq]
  · intro now s e ds de offs offe hds hoffs hde hoffe hlt hle
    constructor
    · simp only [classifyEF, hds, hoffs]
      exact decide_eq_false (by omega)
    · simp only [classifyEF, hde, hoffe]
      exact decide_eq_true hle
  · intro now ev s dt off hss hne hT hdt hoff
    simp only [classifyFE, hss, hne, if_false, hT, if_true, hdt, hoff]
    by_cases hcmp : now ≤ utcMicros dt
    · simp [hcmp]
    · simp [hcmp]

/-- C2, witness: the classification conjuncts applied at concrete
instants around a concrete `now`. -/
theorem C2_witness :
    (classifyEF (utcMicros ⟨2024, 12, 1, 10, 0, 0, 0, some 0⟩)
        "2024-12-01T10:00:00Z" = true ↔
      utcMicros ⟨2024, 12, 1, 10, 0, 0, 0, some 0⟩ ≤
        utcMicros ⟨2024, 12, 1, 10, 0, 0, 0, some 0⟩) ∧
    (classifyEF (utcMicros ⟨2024, 12, 1, 10, 0, 0, 0, some 0⟩)
        "2024-11-01T10:00:00Z" = false ∧
      classifyEF (utcMicros ⟨2024, 12, 1, 10, 0, 0, 0, some 0⟩)
        "2024-12-01T10:00:00Z" = true) ∧
    (classifyFE (utcMicros ⟨2024, 12, 1, 10, 0, 0, 0, some 0⟩)
        ⟨some "X", none, none, none,
          some ⟨some "2030-01-01T00:00:00Z", none, none⟩, none⟩ = .upcoming ↔
      utcMicros ⟨2024, 12, 1, 10, 0, 0, 0, some 0⟩ ≤
        utcMicros ⟨2030, 1, 1, 0, 0, 0, 0, some 0⟩) :=
  ⟨C2_classification.2.1 _ "2024-12-01T10:00:00Z"
      ⟨2024, 12, 1, 10, 0, 0, 0, some 0⟩ 0 (by decide) rfl,
    C2_classification.2.2.2.1 _ "2024-11-01T10:00:00Z" "2024-12-01T10:00:00Z"
      ⟨2024, 11, 1, 10, 0, 0, 0, some 0⟩ ⟨2024, 12, 1, 10, 0, 0, 0, some 0⟩ 0 0
      (by decide) rfl (by decide) rfl (by decide) (by decide),
    C2_classification.2.2.2.2 _ _ "2030-01-01T00:00:00Z"
      ⟨2030, 1, 1, 0, 0, 0, 0, some 0⟩ 0 (by decide) (by decide) (by decide)
      (by decide) rfl⟩

/-! ## Claim C3: bucket ordering and stability -/

/--
C3, counterexample: in fetch-events.py the `past` bucket is rendered
after an in-place `reverse()`, so two past events with the same start
key, fetched in the order `A, B`, are rendered in the order `B, A` —
equal start keys do not keep their original fetch order, contradicting
the claimed stability.
-/
theorem C3_counterexample :
    (categorizeEvents (utcMicros ⟨2024, 1, 1, 0, 0, 0, 0, some 0⟩)
      [⟨some "A", none, none, none,
          some ⟨some "2020-01-01T00:00:00Z", none, none⟩, none⟩,
        ⟨some "B", none, none, none,
          some ⟨some "2020-01-01T00:00:00Z", none, none⟩, none⟩]).2 =
      [⟨some "A", none, none, none,
          some ⟨some "2020-01-01T00:00:00Z", none, none⟩, none⟩,
        ⟨some "B", none, none, none,
          some ⟨some "2020-01-01T00:00:00Z", none, none⟩, none⟩] ∧
    (fetchEventsPipelineHtml (utcMicros ⟨2024, 1, 1, 0, 0, 0, 0, some 0⟩)
      [⟨some "A", none, none, none,
          some ⟨some "2020-01-01T00:00:00Z", none, none⟩, none⟩,
        ⟨some "B", none, none, none,
          some ⟨some "2020-01-01T00:00:00Z", none, none⟩, none⟩]).2 =
      genEventHtml ⟨some "B", none, none, none,
          some ⟨some "2020-01-01T00:00:00Z", none, none⟩, none⟩ ++
        genEventHtml ⟨some "A", none, none, none,
          some ⟨some "2020-01-01T00:00:00Z", none, none⟩, none⟩ ∧
    ¬ genEventHtml ⟨some "B", none, none, none,
          some ⟨some "2020-01-01T00:00:00Z", none, none⟩, none⟩ ++
        genEventHtml ⟨some "A", none, none, none,
          some ⟨some "2020-01-01T00:00:00Z", none, none⟩, none⟩ =
      genEventHtml ⟨some "A", none, none, none,
          some ⟨some "2020-01-01T00:00:00Z", none, none⟩, none⟩ ++
        genEventHtml ⟨some "B", none, none, none,
          some ⟨some "2020-01-01T00:00:00Z", none, none⟩, none⟩ := by
  refine ⟨by decide, by decide, by decide⟩

/--
C3, amended: in `events-fetcher.py` both buckets are stably sorted by
the raw `start` string key — `upcoming` non-decreasing, `past`
non-increasing, and for every key value the filtered subsequence of the
sorted bucket equals that of the fetch-order bucket (stability); in
`fetch-events.py`, by contrast, the upcoming HTML renders the bucket in
fetch order and the past HTML renders it in reversed fetch order, so
equal-key past events appear in reversed order.
-/
theorem C3_amended :
    (∀ (now : Int) (evs : List RawEvent),
      ((eventsFetcherRun now evs).1).Pairwise (fun a b => keyLeUp a b = true) ∧
      ((eventsFetcherRun now evs).2).Pairwise
        (fun a b => keyLeDown a b = true) ∧
      (∀ k : String,
        ((eventsFetcherRun now evs).1).filter (fun e => e.start == k) =
          ((eventsFetcherPartition now evs).1).filter (fun e => e.start == k)) ∧
      (∀ k : String,
        ((eventsFetcherRun now evs).2).filter (fun e => e.start == k) =
          ((eventsFetcherPartition now evs).2).filter
            (fun e => e.start == k))) ∧
    (∀ (now : Int) (items : List RawEvent),
      ¬ (categorizeEvents now items).1 = [] →
      (fetchEventsPipelineHtml now items).1 =
        String.join (((categorizeEvents now items).1).map genEventHtml)) ∧
    (∀ (now : Int) (items : List RawEvent),
      ¬ (categorizeEvents now items).2 = [] →
      (fetchEventsPipelineHtml now items).2 =
        String.join ((((categorizeEvents now items).2).reverse).map
          genEventHtml)) := by
  refine ⟨?_, ?_, ?_⟩
  · intro now evs
    refine ⟨?_, ?_, ?_, ?_⟩
    · exact pairwise_sSort keyLeUp keyLeUp_total keyLeUp_trans _
    · exact pairwise_sSort keyLeDown keyLeDown_total keyLeDown_trans _
    · intro k
      exact filter_sSort keyLeUp _ (fun a b ha hb => keyLeUp_of_beq ha hb) _
    · intro k
      exact filter_sSort keyLeDown _ (fun a b ha hb => keyLeDown_of_beq ha hb) _
  · intro now items h
    show upcomingIncludeHtml (categorizeEvents now items).1 = _
    cases hu : (categorizeEvents now items).1 with
    | nil => exact absurd hu h
    | cons a l => simp [upcomingIncludeHtml]
  · intro now items h
    show pastIncludeHtml (categorizeEvents now items).2 = _
    cases hp : (categorizeEvents now items).2 with
    | nil => exact absurd hp h
    | cons a l => simp [pastIncludeHtml]

/-- C3, witness: the rendering conjuncts applied at a concrete run with
one upcoming and two past events. -/
theorem C3_witness :
    (fetchEventsPipelineHtml (utcMicros ⟨2024, 1, 1, 0, 0, 0, 0, some 0⟩)
      [⟨some "P", none, none, none,
          some ⟨some "2020-01-01T00:00:00Z", none, none⟩, none⟩,
        ⟨some "U", none, none, none,
          some ⟨some "2030-01-01T00:00:00Z", none, none⟩, none⟩]).1 =
      String.join (((categorizeEvents
        (utcMicros ⟨2024, 1, 1, 0, 0, 0, 0, some 0⟩)
        [⟨some "P", none, none, none,
            some ⟨some "2020-01-01T00:00:00Z", none, none⟩, none⟩,
          ⟨some "U", none, none, none,
            some ⟨some "2030-01-01T00:00:00Z", none, none⟩, none⟩]).1).map
        genEventHtml) ∧
    (fetchEventsPipelineHtml (utcMicros ⟨2024, 1, 1, 0, 0, 0, 0, some 0⟩)
      [⟨some "P", none, none, none,
          some ⟨some "2020-01-01T00:00:00Z", none, none⟩, none⟩,
        ⟨some "U", none, none, none,
          some ⟨some "2030-01-01T00:00:00Z", none, none⟩, none⟩]).2 =
      String.join ((((categorizeEvents
        (utcMicros ⟨2024, 1, 1, 0, 0, 0, 0, some 0⟩)
        [⟨some "P", none, none, none,
            some ⟨some "2020-01-01T00:00:00Z", none, none⟩, none⟩,
          ⟨some "U", none, none, none,
            some ⟨some "2030-01-01T00:00:00Z", none, none⟩,
            none⟩]).2).reverse).map genEventHtml) :=
  ⟨C3_amended.2.1 _ _ (by decide), C3_amended.2.2 _ _ (by decide)⟩

/-! ## Claim C6: escaping in `generate_event_html` -/

/--
C6, counterexample: the description field is not rendered unescaped —
`generate_event_html` passes it through `escape_html` (and then converts
newlines to `<br>`), so an event whose description is `<b>hi</b>`
renders with `&lt;b&gt;hi&lt;/b&gt;` and the raw description never
appears in the output.
-/
theorem C6_counterexample :
    genEventHtml ⟨some "T", some "<b>hi</b>", none, none, none, none⟩ =
      "<article class=\"event-card\">\n    <h3>T</h3>\n    <div class=\"event-description\">&lt;b&gt;hi&lt;/b&gt;</div>\n</article>\n" ∧
    containsSeg "<b>hi</b>".data
      (genEventHtml ⟨some "T", some "<b>hi</b>", none, none, none, none⟩).data =
      false := by
  constructor
  · decide
  · decide

/--
C6, amended: every interpolated text field of `generate_event_html` is
HTML-escaped at render time — the summary and the location as the claim
says, and, contrary to the claim, also the description, which is
escaped and then has newlines converted to `<br>` before being
interpolated.
-/
theorem C6_amended :
    ∀ ev : RawEvent,
      containsSeg (escapeHtml (pyGetD ev.summary "Untitled Event")).data
        (genEventHtml ev).data = true ∧
      (¬ pyGetD ev.location "" = "" →
        containsSeg (escapeHtml (pyGetD ev.location "")).data
          (genEventHtml ev).data = true) ∧
      (¬ pyGetD ev.description "" = "" →
        containsSeg
          (strReplace (escapeHtml (pyGetD ev.description "")) "\n" "<br>").data
          (genEventHtml ev).data = true) := by
  intro ev
  refine ⟨?_, ?_, ?_⟩
  · simp only [genEventHtml, String.data_append]
    refine containsSeg_append_left _ _ _ ?_
    refine containsSeg_append_left _ _ _ ?_
    refine containsSeg_append_left _ _ _ ?_
    refine containsSeg_append_left _ _ _ ?_
    refine containsSeg_append_left _ _ _ ?_
    exact containsSeg_append_right _ _ _
      (containsSeg_of_starts (startsList_refl _))
  · intro hloc
    have hL : genLocPart ev = "    <p><strong>Location:</strong> " ++
        escapeHtml (pyGetD ev.location "") ++ "</p>\n" := by
      simp [genLocPart, hloc]
    simp only [genEventHtml, hL, String.data_append]
    refine containsSeg_append_left _ _ _ ?_
    refine containsSeg_append_left _ _ _ ?_
    refine containsSeg_append_right _ _ _ ?_
    refine containsSeg_append_left _ _ _ ?_
    exact containsSeg_append_right _ _ _
      (containsSeg_of_starts (startsList_refl _))
  · intro hdesc
    have hD : genDescPart ev = "    <div class=\"event-description\">" ++
        strReplace (escapeHtml (pyGetD ev.description "")) "\n" "<br>" ++
        "</div>\n" := by
      simp [genDescPart, hdesc]
    simp only [genEventHtml, hD, String.data_append]
    refine containsSeg_append_left _ _ _ ?_
    refine containsSeg_append_right _ _ _ ?_
    refine containsSeg_append_left _ _ _ ?_
    exact containsSeg_append_right _ _ _
      (containsSeg_of_starts (startsList_refl _))

/-- C6, witness: the amended theorem applied at a concrete event whose
location and description are non-empty. -/
theorem C6_witness :
    containsSeg (escapeHtml (pyGetD (some "A & B") "Untitled Event")).data
      (genEventHtml ⟨some "A & B", some "x<y\nz", some "Cafe \"Q\"", none, none,
        none⟩).data = true ∧
    containsSeg (escapeHtml (pyGetD (some "Cafe \"Q\"") "")).data
      (genEventHtml ⟨some "A & B", some "x<y\nz", some "Cafe \"Q\"", none, none,
        none⟩).data = true ∧
    containsSeg (strReplace (escapeHtml (pyGetD (some "x<y\nz") "")) "\n"
        "<br>").data
      (genEventHtml ⟨some "A & B", some "x<y\nz", some "Cafe \"Q\"", none, none,
        none⟩).data = true :=
  ⟨(C6_amended ⟨some "A & B", some "x<y\nz", some "Cafe \"Q\"", none, none,
      none⟩).1,
    (C6_amended ⟨some "A & B", some "x<y\nz", some "Cafe \"Q\"", none, none,
      none⟩).2.1 (by decide),
    (C6_amended ⟨some "A & B", some "x<y\nz", some "Cafe \"Q\"", none, none,
      none⟩).2.2 (by decide)⟩

/-! ## Claim C5: totality of `process_event` with raw-string fallback -/

/--
C5: `process_event` is total by construction (it is a plain function on
the whole `RawEvent` type, every missing field replaced by its `get`
default), and whenever the extracted start or end string fails to parse,
the `except` branch of `format_event_times` makes both display fields
the raw strings in the form `"<start> - <end>"`.
-/
theorem C5_processEvent :
    ∀ ev : RawEvent,
      (fromIso (zfix (extractStart ev)) = none ∨
        fromIso (zfix (extractEnd ev)) = none) →
      (processEvent ev).whenEventTZ = extractStart ev ++ " - " ++ extractEnd ev ∧
      (processEvent ev).whenLocalTZ = extractStart ev ++ " - " ++ extractEnd ev := by
  intro ev h
  have hW : formatEventTimes (extractStart ev) (extractEnd ev) (extractTZ ev) =
      { eventTZ := extractStart ev ++ " - " ++ extractEnd ev
        localTZ := extractStart ev ++ " - " ++ extractEnd ev } := by
    cases hs : fromIso (zfix (extractStart ev)) with
    | none => simp [formatEventTimes, hs]
    | some ds =>
      cases he : fromIso (zfix (extractEnd ev)) with
      | none => simp [formatEventTimes, hs, he]
      | some de =>
        rcases h with h | h
        · exact absurd h (by simp [hs])
        · exact absurd h (by simp [he])
  constructor
  · show (formatEventTimes (extractStart ev) (extractEnd ev) (extractTZ ev)).eventTZ = _
    rw [hW]
  · show (formatEventTimes (extractStart ev) (extractEnd ev) (extractTZ ev)).localTZ = _
    rw [hW]

/-- C5, witness: the theorem applied at an event whose start and end
strings are unparseable. -/
theorem C5_witness :
    (processEvent ⟨none, none, none, none, some ⟨some "garbage", none, none⟩,
      some ⟨some "also-bad", none, none⟩⟩).whenEventTZ =
      extractStart ⟨none, none, none, none, some ⟨some "garbage", none, none⟩,
        some ⟨some "also-bad", none, none⟩⟩ ++ " - " ++
      extractEnd ⟨none, none, none, none, some ⟨some "garbage", none, none⟩,
        some ⟨some "also-bad", none, none⟩⟩ ∧
    (processEvent ⟨none, none, none, none, some ⟨some "garbage", none, none⟩,
      some ⟨some "also-bad", none, none⟩⟩).whenLocalTZ =
      extractStart ⟨none, none, none, none, some ⟨some "garbage", none, none⟩,
        some ⟨some "also-bad", none, none⟩⟩ ++ " - " ++
      extractEnd ⟨none, none, none, none, some ⟨some "garbage", none, none⟩,
        some ⟨some "also-bad", none, none⟩⟩ :=
  C5_processEvent _ (Or.inl (by decide))

/-! ## Claim C10: the two display strings share their formatted body -/

/--
C10: for parseable start/end, `format_event_times` formats the same
parsed datetimes with the same `strftime` patterns for both display
strings — no conversion into the event zone or UTC happens — so the two
fields share one body and differ only in the appended zone label.
-/
theorem C10_formatEventTimes :
    ∀ (startStr endStr tz : String) (ds de : PyDateTime),
      fromIso (zfix startStr) = some ds → fromIso (zfix endStr) = some de →
      ∃ body : String,
        formatEventTimes startStr endStr tz =
          { eventTZ := body ++ " (" ++ tz ++ ")", localTZ := body ++ " (UTC)" } := by
  intro s e tz ds de hs he
  exact ⟨fmtLong ds ++ " - " ++ fmtShort de, by simp [formatEventTimes, hs, he]⟩

/-- C10, witness: the theorem applied at concrete parseable times. -/
theorem C10_witness :
    ∃ body : String,
      formatEventTimes "2024-12-01T10:00:00Z" "2024-12-01T11:00:00Z"
          "America/Toronto" =
        { eventTZ := body ++ " (" ++ "America/Toronto" ++ ")"
          localTZ := body ++ " (UTC)" } :=
  C10_formatEventTimes "2024-12-01T10:00:00Z" "2024-12-01T11:00:00Z"
    "America/Toronto" ⟨2024, 12, 1, 10, 0, 0, 0, some 0⟩
    ⟨2024, 12, 1, 11, 0, 0, 0, some 0⟩ (by decide) (by decide)

/-! ## Claim C9: configuration errors are fatal and precede the network -/

/--
C9: with the API key absent (unset or empty) the `events-fetcher`
constructor raises its `ValueError`, and with a falsy key or calendar id
`fetch_calendar_events` exits with its configuration error; in the
latter case the result does not depend on the network oracle at all, so
the failure is reported before any network request is attempted.
-/
theorem C9_config :
    (∀ apiKey : Option String, apiKey = none ∨ apiKey = some "" →
      eventsFetcherInit apiKey =
        .error "GOOGLE_API_KEY environment variable is required") ∧
    (∀ (calendarId : String) (net net' : String → String),
      fetchCalendarEvents "" calendarId net =
        .error "ERROR: GOOGLE_CALENDAR_API_KEY and CALENDAR_ID must be set" ∧
      fetchCalendarEvents "" calendarId net =
        fetchCalendarEvents "" calendarId net') ∧
    (∀ (apiKey : String) (net net' : String → String),
      fetchCalendarEvents apiKey "" net =
        .error "ERROR: GOOGLE_CALENDAR_API_KEY and CALENDAR_ID must be set" ∧
      fetchCalendarEvents apiKey "" net =
        fetchCalendarEvents apiKey "" net') := by
  refine ⟨?_, ?_, ?_⟩
  · intro apiKey h
    simp [eventsFetcherInit, h]
  · intro calendarId net net'
    constructor <;> simp [fetchCalendarEvents]
  · intro apiKey net net'
    constructor <;> simp [fetchCalendarEvents]

/-- C9, witness: the theorem applied at an unset key and two distinct
network oracles. -/
theorem C9_witness :
    eventsFetcherInit none =
      .error "GOOGLE_API_KEY environment variable is required" ∧
    fetchCalendarEvents "" "cal@x" (fun _ => "a") =
      .error "ERROR: GOOGLE_CALENDAR_API_KEY and CALENDAR_ID must be set" ∧
    fetchCalendarEvents "" "cal@x" (fun _ => "a") =
      fetchCalendarEvents "" "cal@x" (fun _ => "b") :=
  ⟨C9_config.1 none (Or.inl rfl),
    (C9_config.2.1 "cal@x" (fun _ => "a") (fun _ => "b")).1,
    (C9_config.2.1 "cal@x" (fun _ => "a") (fun _ => "b")).2⟩

/-- C7, witness: both conjuncts applied at a concrete page text with a
present and an absent include file. -/
theorem C7_witness :
    processIncludes (fun n => if n = "f.html" then some "C" else none)
      ⟨"a".data ++ (directiveText [' '] [' '] "f.html".data [' '] ++ "b".data)⟩ =
      ⟨"a".data ++ ("C".data ++
        (processIncludes (fun n => if n = "f.html" then some "C" else none)
          ⟨"b".data⟩).data)⟩ ∧
    processIncludes (fun _ => none)
      ⟨"a".data ++ (directiveText [' '] [' '] "g.html".data [' '] ++ "b".data)⟩ =
      ⟨"a".data ++ (("<!-- Include file not found: " ++
        (⟨"g.html".data⟩ : String) ++ " -->").data ++
        (processIncludes (fun _ => (none : Option String)) ⟨"b".data⟩).data)⟩ :=
  ⟨C7_includes.1 _ "a".data [' '] [' '] "f.html".data [' '] "b".data "C"
      (by decide) (by decide) (by decide) (by decide) (by decide) (by decide)
      (by decide) (by decide),
    C7_includes.2 _ "a".data [' '] [' '] "g.html".data [' '] "b".data
      (by decide) (by decide) (by decide) (by decide) (by decide) (by decide)
      (by decide) rfl⟩

end CANRUG
